import Mathlib

/-!
Verification of the TieDye CLI file-sorting engine (`tiedye/core/sorter.py`,
function `sort_files`) against its natural-language specification.

The filesystem is modelled as a finite association list of file paths to
contents plus a finite list of directory paths; a path is a list of
components, mirroring `pathlib.Path` parts (paths are taken as already
user-expanded, so `expanduser` is the identity here).  Every definition
below is a direct translation of the corresponding Python construct in
`sort_files`; library calls (`pathlib` suffix/stem parsing, `mkdir`,
`shutil.move`) are modelled at the level of their documented filesystem
effect.  Failures that the interpreter could raise non-deterministically
(permission errors, generic I/O errors) enter through an explicit error
oracle so that the error-handling claims can be stated.
-/

/-- Filesystem paths as component lists, mirroring `pathlib.Path.parts`. -/
abbrev FPath := List String

/-- Final component of a path, mirroring `pathlib.Path.name`. -/
def lastName (p : FPath) : String := p.getLastD ""

/-- Parent path, mirroring `pathlib.Path.parent` (drop the last component). -/
def parentOf (p : FPath) : FPath := p.dropLast

/-- Model of Python `str.lower()`: character-wise ASCII lowercasing. -/
def pyLower (s : String) : String := ⟨s.data.map Char.toLower⟩

/-- Index of the last occurrence of a dot, mirroring `str.rfind('.')`
(`none` plays the role of the Python result `-1`). -/
def rfindDot : List Char → Option Nat
  | [] => none
  | c :: cs =>
    match rfindDot cs with
    | some i => some (i + 1)
    | none => if c = '.' then some 0 else none

/-- Model of `pathlib.PurePath.suffix`: the part of the name from the last
dot onward, provided that dot is neither the first nor the last character;
otherwise the empty string. -/
def pySuffix (fname : String) : String :=
  match rfindDot fname.data with
  | some i => if 0 < i ∧ i < fname.data.length - 1 then ⟨fname.data.drop i⟩ else ""
  | none => ""

/-- Model of `pathlib.PurePath.stem`: the name up to the last dot under the
same proviso as `pySuffix`; otherwise the whole name. -/
def pyStem (fname : String) : String :=
  match rfindDot fname.data with
  | some i => if 0 < i ∧ i < fname.data.length - 1 then ⟨fname.data.take i⟩ else fname
  | none => fname

/-- Little-endian decimal digit characters of a positive number, with a
structural fuel argument (any fuel at least the number itself is enough). -/
def natDigitsAux : Nat → Nat → List Char
  | _, 0 => []
  | 0, _ + 1 => []
  | fuel + 1, n + 1 => Nat.digitChar ((n + 1) % 10) :: natDigitsAux fuel ((n + 1) / 10)

/-- Decimal rendering of a natural number, modelling Python `str(count)`
inside the f-string of the rename loop. -/
def natRepr (n : Nat) : String :=
  if n = 0 then "0" else ⟨(natDigitsAux n n).reverse⟩

/-- One sorting rule from the `sorter.rules` list of the configuration:
a list of extension strings and a target folder. -/
structure SortRule where
  extensions : List String
  target_folder : FPath
deriving DecidableEq

/-- The `sorter` section of the configuration, after the `.get` defaults in
`sort_files` have been applied (`collision_policy` defaults to `"skip"`,
`recursive_scan` to `true`, `rules` and `ignore_patterns` to empty). -/
structure SorterConfig where
  rules : List SortRule
  collision_policy : String
  recursive_scan : Bool
  ignore_patterns : List String
deriving DecidableEq

/-- The rule-matching loop of `sort_files`: the first rule whose
`extensions` list contains `item_path.suffix.lower()` is selected. -/
def ruleFor (rules : List SortRule) (fname : String) : Option SortRule :=
  match rules with
  | [] => none
  | r :: rs => if pyLower (pySuffix fname) ∈ r.extensions then some r else ruleFor rs fname

/-- Rule matching for a candidate path; `pathlib` takes the suffix of the
final path component. -/
def findRule (rules : List SortRule) (p : FPath) : Option SortRule :=
  ruleFor rules (lastName p)

/-- Filesystem state: an association list from regular-file paths to file
contents, plus the list of existing directory paths. -/
structure FS where
  files : List (FPath × Nat)
  dirs : List FPath
deriving DecidableEq

/-- Lookup in a path-to-content association list. -/
def assocFind : List (FPath × Nat) → FPath → Option Nat
  | [], _ => none
  | e :: es, p => if e.1 = p then some e.2 else assocFind es p

/-- Removal of a path from a path-to-content association list. -/
def assocErase : List (FPath × Nat) → FPath → List (FPath × Nat)
  | [], _ => []
  | e :: es, p => if e.1 = p then assocErase es p else e :: assocErase es p

/-- Paths of all regular files of a filesystem state. -/
def fileKeys (fs : FS) : List FPath := fs.files.map Prod.fst

/-- A regular file is present at the path. -/
def isFileAt (fs : FS) (p : FPath) : Prop := (assocFind fs.files p).isSome = true

/-- Some entry (file or directory) is present at the path, mirroring
`pathlib.Path.exists()`. -/
def existsAt (fs : FS) (p : FPath) : Prop :=
  (assocFind fs.files p).isSome = true ∨ p ∈ fs.dirs

instance (fs : FS) (p : FPath) : Decidable (existsAt fs p) := by
  unfold existsAt; infer_instance

instance (fs : FS) (p : FPath) : Decidable (isFileAt fs p) := by
  unfold isFileAt; infer_instance

/-- Well-formedness of a filesystem state: no two file entries share a path. -/
def WF (fs : FS) : Prop := (fileKeys fs).Nodup

instance (fs : FS) : Decidable (WF fs) := by
  unfold WF; infer_instance

/-- All nonempty component-list ancestors of a path, innermost last; these
are the directories `mkdir(parents=True)` ensures exist. -/
def ancestorsOf (t : FPath) : List FPath :=
  (List.range t.length).map (fun i => t.take (i + 1))

/-- Append a directory path if it is not present yet. -/
def insertNew (ds : List FPath) (q : FPath) : List FPath :=
  if q ∈ ds then ds else ds ++ [q]

/-- Model of `target_folder.mkdir(parents=True, exist_ok=True)`: ensure the
target folder and all its ancestors exist as directories. -/
def pyMkdir (fs : FS) (t : FPath) : FS :=
  { files := fs.files, dirs := (ancestorsOf t).foldl insertNew fs.dirs }

/-- Scan filter of phase 1 of `sort_files`: the entry's name must not be in
`ignore_patterns`, and the path must lie under the root — strictly below it
for `rglob('*')`, exactly one level below it for `glob('*')`. -/
def scanCond (root : FPath) (recursive : Bool) (ignore : List String) (p : FPath) : Bool :=
  !(ignore.contains (lastName p)) &&
    (if recursive then root.isPrefixOf p && decide (root.length < p.length)
     else root.isPrefixOf p && decide (p.length = root.length + 1))

/-- Phase 1 of `sort_files`: materialize the list of candidate regular
files (`files_to_move`) under the root before any mutation happens. -/
def pyScan (fs : FS) (root : FPath) (recursive : Bool) (ignore : List String) : List FPath :=
  (fileKeys fs).filter (scanCond root recursive ignore)

/-- Reasons a single move can fail; the Python code catches
`PermissionError` and all other exceptions of `shutil.move` locally. -/
inductive MoveFailure where
  | permission
  | ioError
  | destOccupied
  | srcMissing
deriving DecidableEq

/-- Model of `shutil.move(src, dst)`: when `dst` is an existing directory
the source is moved into it (failing if the inner name is taken, as
`shutil.move` raises); otherwise the source file is relocated to `dst`,
replacing any regular file already there. -/
def shutilMove (fs : FS) (src dst : FPath) : Except MoveFailure FS :=
  if dst ∈ fs.dirs then
    (if existsAt fs (dst ++ [lastName src]) then .error .destOccupied
     else
       match assocFind fs.files src with
       | none => .error .srcMissing
       | some c => .ok { files := assocErase fs.files src ++ [(dst ++ [lastName src], c)], dirs := fs.dirs })
  else
    match assocFind fs.files src with
    | none => .error .srcMissing
    | some c => .ok { files := assocErase (assocErase fs.files src) dst ++ [(dst, c)], dirs := fs.dirs }

/-- Environment-chosen failures: which `mkdir` calls and which moves raise
`PermissionError` or another `OSError` in a given run. -/
structure ErrOracle where
  mkdirFails : FPath → Bool
  movePermFails : FPath → FPath → Bool
  moveFailsOther : FPath → FPath → Bool

/-- The failure-free environment. -/
def noErr : ErrOracle := ⟨fun _ => false, fun _ _ => false, fun _ _ => false⟩

/-- Uncaught Python exceptions of the run: `sort_files` has no handler
around the `mkdir` call, so an error there escapes the function. -/
inductive PyError where
  | notADirectoryError
  | mkdirFailed (target : FPath)
deriving DecidableEq

/-- Terminal classification of one candidate file (the spec's
`MoveOutcome.status`), labelling the branches of the phase-2 loop body. -/
inductive Outcome where
  | moved (dest : FPath)
  | skippedNoRule
  | skippedSameLocation
  | skippedCollision
  | failed (kind : MoveFailure)
deriving DecidableEq

/-- Decidable equality for `Except` results, so that concrete runs can be
checked by evaluation. -/
instance {ε α : Type} [DecidableEq ε] [DecidableEq α] : DecidableEq (Except ε α)
  | .error e, .error f =>
    if h : e = f then .isTrue (by rw [h]) else .isFalse (fun hc => by cases hc; exact h rfl)
  | .error _, .ok _ => .isFalse (fun hc => by cases hc)
  | .ok _, .error _ => .isFalse (fun hc => by cases hc)
  | .ok a, .ok b =>
    if h : a = b then .isTrue (by rw [h]) else .isFalse (fun hc => by cases hc; exact h rfl)

/-- Candidate name of the rename loop: the f-string
`f"{item_path.stem}({count}){item_path.suffix}"`. -/
def renameCandidate (stem sfx : String) (n : Nat) : String :=
  stem ++ "(" ++ natRepr n ++ ")" ++ sfx

/-- The `while destination_path.exists()` loop of the `rename` policy,
entered with `count = 1` once the original destination is known to exist:
return the first candidate path, in counter order, that does not exist.
The structural fuel argument only bounds the recursion; with fuel larger
than the number of existing filesystem entries it is never exhausted. -/
def renameLoop (fs : FS) (target : FPath) (stem sfx : String) : Nat → Nat → FPath
  | 0, n => target ++ [renameCandidate stem sfx n]
  | fuel + 1, n =>
    if existsAt fs (target ++ [renameCandidate stem sfx n]) then
      renameLoop fs target stem sfx fuel (n + 1)
    else target ++ [renameCandidate stem sfx n]

/-- Number of entries of a filesystem state, used as rename-loop fuel. -/
def fsSize (fs : FS) : Nat := fs.files.length + fs.dirs.length

/-- The guarded move at the end of the phase-2 loop body: `shutil.move`
inside `try`, with `PermissionError` and every other exception caught and
turned into a per-file failure. -/
def moveStep (o : ErrOracle) (fs : FS) (src dst : FPath) : FS × Outcome :=
  if o.movePermFails src dst then (fs, .failed .permission)
  else if o.moveFailsOther src dst then (fs, .failed .ioError)
  else
    match shutilMove fs src dst with
    | .ok fs2 => (fs2, .moved dst)
    | .error k => (fs, .failed k)

/-- One iteration of the phase-2 loop of `sort_files` for candidate `p`:
match a rule; on a match create the target folder (uncaught on failure),
skip when the file already sits in the target folder, then apply the
collision policy (`skip` / `overwrite` / `rename`, any other value falls
through to a plain move) and perform the guarded move. -/
def processFile (o : ErrOracle) (policy : String) (rules : List SortRule) (fs : FS) (p : FPath) :
    Except PyError (FS × Outcome) :=
  match findRule rules p with
  | none => .ok (fs, .skippedNoRule)
  | some rule =>
    if o.mkdirFails rule.target_folder then .error (.mkdirFailed rule.target_folder)
    else
      let fs1 := pyMkdir fs rule.target_folder
      let dst := rule.target_folder ++ [lastName p]
      if parentOf p = rule.target_folder then .ok (fs1, .skippedSameLocation)
      else if existsAt fs1 dst then
        if policy = "skip" then .ok (fs1, .skippedCollision)
        else if policy = "overwrite" then .ok (moveStep o fs1 p dst)
        else if policy = "rename" then
          .ok (moveStep o fs1 p
            (renameLoop fs1 rule.target_folder (pyStem (lastName p)) (pySuffix (lastName p))
              (fsSize fs1 + 1) 1))
        else .ok (moveStep o fs1 p dst)
      else .ok (moveStep o fs1 p dst)

/-- How a `sort_files` invocation ended: early return on missing `sorter`
configuration, early return on an invalid source directory, an uncaught
exception, or normal completion of the phase-2 loop. -/
inductive RunExit where
  | configMissing
  | sourceMissing
  | raised (e : PyError)
  | completed
deriving DecidableEq

/-- Result of a run: final filesystem state, how the run ended, and the
per-candidate outcomes in scan order (cut short by an uncaught exception). -/
structure SortResult where
  fs : FS
  exit : RunExit
  outcomes : List (FPath × Outcome)
deriving DecidableEq

/-- Phase 2 of `sort_files`: process the materialized candidate list in
order, threading the filesystem state; an uncaught exception aborts the
remainder of the run. -/
def processAll (o : ErrOracle) (policy : String) (rules : List SortRule) :
    FS → List FPath → SortResult
  | fs, [] => ⟨fs, .completed, []⟩
  | fs, p :: ps =>
    match processFile o policy rules fs p with
    | .error e => ⟨fs, .raised e, []⟩
    | .ok (fs2, out) =>
      let rest := processAll o policy rules fs2 ps
      ⟨rest.fs, rest.exit, (p, out) :: rest.outcomes⟩

/-- The function `sort_files` of `tiedye/core/sorter.py`: reject a missing
`sorter` configuration, reject a source that is not a directory (the code
prints an error and returns normally in both cases), then scan and process. -/
def sort_files (config : Option SorterConfig) (sourceDir : FPath) (fs : FS) (o : ErrOracle) :
    SortResult :=
  match config with
  | none => ⟨fs, .configMissing, []⟩
  | some sc =>
    if sourceDir ∈ fs.dirs then
      processAll o sc.collision_policy sc.rules fs
        (pyScan fs sourceDir sc.recursive_scan sc.ignore_patterns)
    else ⟨fs, .sourceMissing, []⟩

/-- A path is settled when its name matches no rule, or its parent is
already the matched rule's target folder; a skip-policy run never moves a
settled file. -/
def settled (rules : List SortRule) (q : FPath) : Prop :=
  ∀ r, ruleFor rules (lastName q) = some r → parentOf q = r.target_folder

/-- A path is blocked or settled when it is settled or its proposed
destination (the matched rule's target folder joined with its own name)
exists; under the skip policy such a file is never moved. -/
def blockedOrSettled (rules : List SortRule) (fs : FS) (q : FPath) : Prop :=
  settled rules q ∨ ∃ r, ruleFor rules (lastName q) = some r ∧
    existsAt fs (r.target_folder ++ [lastName q])

/-- The target folder of the rule matched by the path's name, together
with all its ancestors, already exists as directories. -/
def dirsReady (rules : List SortRule) (fs : FS) (q : FPath) : Prop :=
  ∀ r, ruleFor rules (lastName q) = some r → ∀ a ∈ ancestorsOf r.target_folder, a ∈ fs.dirs

/-! ### Character and string facts used by the rule-matching claims -/

theorem uint32_le_iff {a b : UInt32} : a ≤ b ↔ a.toNat ≤ b.toNat :=
  ⟨fun h => h, fun h => h⟩

theorem char_ofNat_toNat {m : Nat} (h : m < 55296) : (Char.ofNat m).toNat = m := by
  have hvalid : m.isValidChar := Or.inl h
  rw [Char.ofNat, dif_pos hvalid]
  simp [Char.ofNatAux, Char.toNat, UInt32.toNat]

theorem toLower_not_upper (c : Char) : (Char.toLower c).isUpper = false := by
  rw [Char.toLower]
  by_cases h : c.toNat ≥ 65 ∧ c.toNat ≤ 90
  · rw [if_pos h, Char.isUpper, Bool.and_eq_false_iff]
    right
    rw [decide_eq_false_iff_not]
    intro hle
    have hv : (Char.ofNat (c.toNat + 32)).toNat = c.toNat + 32 := char_ofNat_toNat (by omega)
    have h2 : (Char.ofNat (c.toNat + 32)).toNat ≤ (90 : UInt32).toNat := uint32_le_iff.mp hle
    have h90 : (90 : UInt32).toNat = 90 := rfl
    omega
  · rw [if_neg h, Char.isUpper, Bool.and_eq_false_iff]
    by_cases h65 : c.toNat ≥ 65
    · right
      rw [decide_eq_false_iff_not]
      intro hle
      exact h ⟨h65, uint32_le_iff.mp hle⟩
    · left
      rw [decide_eq_false_iff_not]
      intro hle
      exact h65 (uint32_le_iff.mp hle)

theorem pyLower_no_upper (s : String) (c : Char) (hc : c ∈ (pyLower s).data) :
    c.isUpper = false := by
  rw [pyLower] at hc
  simp only [List.mem_map] at hc
  obtain ⟨d, _, rfl⟩ := hc
  exact toLower_not_upper d

theorem rfindDot_get {cs : List Char} {i : Nat} (h : rfindDot cs = some i) :
    cs.get? i = some '.' := by
  induction cs generalizing i with
  | nil => simp [rfindDot] at h
  | cons c cs ih =>
    rw [rfindDot] at h
    cases hr : rfindDot cs with
    | some j =>
      rw [hr] at h
      cases h
      exact ih hr
    | none =>
      rw [hr] at h
      by_cases hc : c = '.'
      · rw [if_pos hc] at h
        cases h
        simp [hc]
      · rw [if_neg hc] at h
        cases h

theorem head?_drop {α : Type} (l : List α) (i : Nat) : (l.drop i).head? = l.get? i := by
  induction l generalizing i with
  | nil => simp
  | cons a l ih =>
    cases i with
    | zero => simp
    | succ j => simp only [List.drop_succ_cons, List.get?_cons_succ]; exact ih j

theorem pySuffix_cases (fname : String) :
    pySuffix fname = "" ∨ (pySuffix fname).data.head? = some '.' := by
  cases hr : rfindDot fname.data with
  | none => left; rw [pySuffix, hr]
  | some i =>
    by_cases hcond : 0 < i ∧ i < fname.data.length - 1
    · right
      have hval : pySuffix fname = ⟨fname.data.drop i⟩ := by
        rw [pySuffix, hr]
        exact if_pos hcond
      rw [hval]
      show (fname.data.drop i).head? = some '.'
      rw [head?_drop]
      exact rfindDot_get hr
    · left
      rw [pySuffix, hr]
      exact if_neg hcond

/-! ### Decimal rendering is injective (termination of the rename loop) -/

theorem digitChar_inj_lt : ∀ d < 10, ∀ e < 10, Nat.digitChar d = Nat.digitChar e → d = e := by
  decide

theorem map_digitChar_inj {l1 l2 : List Nat} (h1 : ∀ d ∈ l1, d < 10) (h2 : ∀ d ∈ l2, d < 10)
    (h : l1.map Nat.digitChar = l2.map Nat.digitChar) : l1 = l2 := by
  induction l1 generalizing l2 with
  | nil => cases l2 <;> simp_all
  | cons a l ih =>
    cases l2 with
    | nil => simp_all
    | cons b l2 =>
      simp only [List.map_cons, List.cons.injEq] at h
      have ha := h1 a (by simp)
      have hb := h2 b (by simp)
      have : a = b := digitChar_inj_lt a ha b hb h.1
      subst this
      have := ih (fun d hd => h1 d (by simp [hd])) (fun d hd => h2 d (by simp [hd])) h.2
      simp [this]

theorem ofDigits_single_zero : Nat.ofDigits 10 [0] = 0 := by
  simp [Nat.ofDigits]

theorem natDigitsAux_eq : ∀ fuel n, n ≤ fuel →
    natDigitsAux fuel n = (Nat.digits 10 n).map Nat.digitChar := by
  intro fuel
  induction fuel with
  | zero =>
    intro n h
    have : n = 0 := by omega
    rw [this]
    simp [natDigitsAux]
  | succ f ih =>
    intro n h
    cases n with
    | zero => simp [natDigitsAux]
    | succ m =>
      rw [natDigitsAux]
      have hd : Nat.digits 10 (m + 1) = ((m + 1) % 10) :: Nat.digits 10 ((m + 1) / 10) :=
        Nat.digits_def' (by norm_num) (by omega)
      rw [hd, List.map_cons]
      have hdiv : (m + 1) / 10 ≤ f := by
        have := Nat.div_lt_self (Nat.succ_pos m) (by norm_num : 1 < 10)
        omega
      rw [ih _ hdiv]

theorem natRepr_eq_digits (n : Nat) :
    natRepr n = if n = 0 then "0" else ⟨((Nat.digits 10 n).map Nat.digitChar).reverse⟩ := by
  rw [natRepr, natDigitsAux_eq n n le_rfl]

theorem natRepr_inj {m n : Nat} (h : natRepr m = natRepr n) : m = n := by
  rw [natRepr_eq_digits, natRepr_eq_digits] at h
  by_cases hm : m = 0 <;> by_cases hn : n = 0
  · omega
  · rw [if_pos hm, if_neg hn] at h
    exfalso
    have hd : ("0" : String).data = (((Nat.digits 10 n).map Nat.digitChar).reverse : List Char) := by
      rw [h]
    have hrev : ((Nat.digits 10 n).map Nat.digitChar).reverse = ['0'] := hd.symm
    have hmap : (Nat.digits 10 n).map Nat.digitChar = ['0'] := by
      have := congrArg List.reverse hrev
      simpa using this
    have hdig : Nat.digits 10 n = [0] := by
      have hlen : (Nat.digits 10 n).length = 1 := by
        have := congrArg List.length hmap
        simpa using this
      match hdg : Nat.digits 10 n with
      | [] => rw [hdg] at hlen; simp at hlen
      | d :: ds =>
        rw [hdg] at hlen hmap
        cases ds with
        | nil =>
          simp only [List.map_cons, List.map_nil, List.cons.injEq] at hmap
          have hdlt : d < 10 := Nat.digits_lt_base (by norm_num) (by rw [hdg]; simp)
          have : d = 0 := digitChar_inj_lt d hdlt 0 (by norm_num) (by simpa using hmap.1)
          simp [this]
        | cons e es => simp at hlen
    have : n = 0 := by
      have := Nat.ofDigits_digits 10 n
      rw [hdig] at this
      rw [← this, ofDigits_single_zero]
    exact hn this
  · rw [if_neg hm, if_pos hn] at h
    exfalso
    have hd : (((Nat.digits 10 m).map Nat.digitChar).reverse : List Char) = ("0" : String).data := by
      rw [← h]
    have hmap : (Nat.digits 10 m).map Nat.digitChar = ['0'] := by
      have := congrArg List.reverse hd
      simpa using this
    have hdig : Nat.digits 10 m = [0] := by
      have hlen : (Nat.digits 10 m).length = 1 := by
        have := congrArg List.length hmap
        simpa using this
      match hdg : Nat.digits 10 m with
      | [] => rw [hdg] at hlen; simp at hlen
      | d :: ds =>
        rw [hdg] at hlen hmap
        cases ds with
        | nil =>
          simp only [List.map_cons, List.map_nil, List.cons.injEq] at hmap
          have hdlt : d < 10 := Nat.digits_lt_base (by norm_num) (by rw [hdg]; simp)
          have : d = 0 := digitChar_inj_lt d hdlt 0 (by norm_num) (by simpa using hmap.1)
          simp [this]
        | cons e es => simp at hlen
    have : m = 0 := by
      have := Nat.ofDigits_digits 10 m
      rw [hdig] at this
      rw [← this, ofDigits_single_zero]
    exact hm this
  · rw [if_neg hm, if_neg hn] at h
    have hd : (((Nat.digits 10 m).map Nat.digitChar).reverse : List Char)
        = ((Nat.digits 10 n).map Nat.digitChar).reverse := by
      have := congrArg String.data h
      simpa using this
    have hmap : (Nat.digits 10 m).map Nat.digitChar = (Nat.digits 10 n).map Nat.digitChar := by
      have := congrArg List.reverse hd
      simpa using this
    have hdig : Nat.digits 10 m = Nat.digits 10 n :=
      map_digitChar_inj (fun d hd => Nat.digits_lt_base (by norm_num) hd)
        (fun d hd => Nat.digits_lt_base (by norm_num) hd) hmap
    have h1 := Nat.ofDigits_digits 10 m
    have h2 := Nat.ofDigits_digits 10 n
    rw [← h1, ← h2, hdig]

/-! ### Rule matching: first-match-wins characterization -/

theorem ruleFor_none_iff (rules : List SortRule) (fname : String) :
    ruleFor rules fname = none ↔ ∀ r ∈ rules, pyLower (pySuffix fname) ∉ r.extensions := by
  induction rules with
  | nil => simp [ruleFor]
  | cons r rs ih =>
    by_cases h : pyLower (pySuffix fname) ∈ r.extensions
    · simp [ruleFor, h]
    · rw [ruleFor, if_neg h]
      constructor
      · intro hn q hq
        rcases List.mem_cons.mp hq with rfl | hq
        · exact h
        · exact (ih.mp hn) q hq
      · intro hall
        exact ih.mpr (fun q hq => hall q (List.mem_cons_of_mem r hq))

theorem ruleFor_some_least (rules : List SortRule) (fname : String) (r : SortRule)
    (h : ruleFor rules fname = some r) :
    ∃ i : Nat, ∃ hi : i < rules.length,
      rules.get ⟨i, hi⟩ = r ∧ pyLower (pySuffix fname) ∈ r.extensions ∧
      ∀ j : Nat, (hj : j < rules.length) → j < i →
        pyLower (pySuffix fname) ∉ (rules.get ⟨j, hj⟩).extensions := by
  induction rules with
  | nil => simp [ruleFor] at h
  | cons q rs ih =>
    by_cases hq : pyLower (pySuffix fname) ∈ q.extensions
    · rw [ruleFor, if_pos hq] at h
      cases h
      refine ⟨0, by simp, rfl, hq, ?_⟩
      intro j hj hlt
      omega
    · rw [ruleFor, if_neg hq] at h
      obtain ⟨i, hi, hget, hmem, hleast⟩ := ih h
      refine ⟨i + 1, by simpa using Nat.succ_lt_succ hi, by simpa using hget, hmem, ?_⟩
      intro j hj hlt
      cases j with
      | zero => simpa using hq
      | succ j0 =>
        have hj0 : j0 < rs.length := by simpa using hj
        have := hleast j0 hj0 (by omega)
        simpa using this

/-- Claim C3: the rule matcher selects the first rule, in sequence order,
whose extension list contains the file's lowercased suffix (leading dot
included), returns no rule when no extension list contains it, and when
two rules both contain the file's extension the earlier one is selected
regardless of rule content. -/
theorem rule_match_first_wins (rules : List SortRule) (p : FPath) :
    (findRule rules p = none ↔
      ∀ r ∈ rules, pyLower (pySuffix (lastName p)) ∉ r.extensions) ∧
    (∀ r, findRule rules p = some r →
      ∃ i : Nat, ∃ hi : i < rules.length,
        rules.get ⟨i, hi⟩ = r ∧ pyLower (pySuffix (lastName p)) ∈ r.extensions ∧
        ∀ j : Nat, (hj : j < rules.length) → j < i →
          pyLower (pySuffix (lastName p)) ∉ (rules.get ⟨j, hj⟩).extensions) ∧
    (∀ i j : Nat, (hi : i < rules.length) → (hj : j < rules.length) → i < j →
      pyLower (pySuffix (lastName p)) ∈ (rules.get ⟨i, hi⟩).extensions →
      ∃ k : Nat, ∃ hk : k < rules.length, k ≤ i ∧
        findRule rules p = some (rules.get ⟨k, hk⟩) ∧
        pyLower (pySuffix (lastName p)) ∈ (rules.get ⟨k, hk⟩).extensions) := by
  refine ⟨ruleFor_none_iff rules (lastName p), ruleFor_some_least rules (lastName p), ?_⟩
  intro i j hi hj hij hmem
  cases hfr : findRule rules p with
  | none =>
    exfalso
    exact ((ruleFor_none_iff rules (lastName p)).mp hfr) (rules.get ⟨i, hi⟩)
      (rules.get_mem _ _) hmem
  | some r =>
    obtain ⟨k, hk, hget, hkmem, hleast⟩ := ruleFor_some_least rules (lastName p) r hfr
    refine ⟨k, hk, ?_, by rw [hget], by rw [hget]; exact hkmem⟩
    by_contra hik
    exact hleast i hi (by omega) hmem

/-- Witness for C3 at a concrete input: with two rules both containing
`.txt`, the matcher must select a rule at index at most 0, namely the
earlier one. -/
theorem rule_match_first_wins_witness :
    ∃ k : Nat,
      ∃ hk : k < ([⟨[".txt"], ["A"]⟩, ⟨[".txt"], ["B"]⟩] : List SortRule).length, k ≤ 0 ∧
      findRule [⟨[".txt"], ["A"]⟩, ⟨[".txt"], ["B"]⟩] ["s", "x.txt"]
        = some (([⟨[".txt"], ["A"]⟩, ⟨[".txt"], ["B"]⟩] : List SortRule).get ⟨k, hk⟩) ∧
      pyLower (pySuffix (lastName ["s", "x.txt"]))
        ∈ (([⟨[".txt"], ["A"]⟩, ⟨[".txt"], ["B"]⟩] : List SortRule).get ⟨k, hk⟩).extensions :=
  (rule_match_first_wins [⟨[".txt"], ["A"]⟩, ⟨[".txt"], ["B"]⟩] ["s", "x.txt"]).2.2
    0 1 (by decide) (by decide) (by decide) (by decide)

/-! ### Claim C10: verbatim comparison of configured extensions -/

/-- Counterexample to claim C10 as stated: a rule whose extension list
consists of the empty string — an entry lacking the leading dot — does
match a candidate file, namely any file without a suffix such as `README`. -/
theorem verbatim_extension_cex :
    findRule [⟨[""], ["Other"]⟩] ["src", "README"] = some ⟨[""], ["Other"]⟩ := by decide

/-- Amended claim C10: configured extensions are compared verbatim against
the file's lowercased suffix; an entry containing an ASCII uppercase
letter never equals that suffix, and a NONEMPTY entry lacking the leading
dot never equals it, so a rule whose entries are all of these two ill
shapes matches no candidate file (the empty-string entry, by contrast,
does match suffix-less files, refuting the unrestricted claim). -/
theorem verbatim_extension_comparison (entry fname : String) :
    (entry.data.any Char.isUpper = true → entry ≠ pyLower (pySuffix fname)) ∧
    (entry ≠ "" → entry.data.head? ≠ some '.' → entry ≠ pyLower (pySuffix fname)) ∧
    (∀ exts : List String,
      (∀ e ∈ exts, e.data.any Char.isUpper = true ∨ (e ≠ "" ∧ e.data.head? ≠ some '.')) →
      pyLower (pySuffix fname) ∉ exts) := by
  have hup : entry.data.any Char.isUpper = true → entry ≠ pyLower (pySuffix fname) := by
    intro hany heq
    rw [List.any_eq_true] at hany
    obtain ⟨c, hc, hcup⟩ := hany
    rw [heq] at hc
    rw [pyLower_no_upper (pySuffix fname) c hc] at hcup
    cases hcup
  have hdot : ∀ e : String, e ≠ "" → e.data.head? ≠ some '.' → e ≠ pyLower (pySuffix fname) := by
    intro e hne hhead heq
    rcases pySuffix_cases fname with hemp | hdotted
    · apply hne
      apply String.ext
      rw [heq, hemp]
      rfl
    · apply hhead
      rw [heq]
      show (pyLower (pySuffix fname)).data.head? = some '.'
      rw [pyLower]
      show ((pySuffix fname).data.map Char.toLower).head? = some '.'
      rw [List.head?_map, hdotted]
      rfl
  refine ⟨hup, hdot entry, ?_⟩
  intro exts hall hmem
  rcases hall _ hmem with hany | ⟨hne, hhead⟩
  · have heq : pyLower (pySuffix fname) = pyLower (pySuffix fname) := rfl
    rw [List.any_eq_true] at hany
    obtain ⟨c, hc, hcup⟩ := hany
    rw [pyLower_no_upper (pySuffix fname) c hc] at hcup
    cases hcup
  · exact hdot _ hne hhead rfl

/-- Witness for C10's amended theorem at concrete inputs: the entry
`.TXT` (uppercase) and the entry `txt` (dotless, nonempty) both fail to
equal the lowercased suffix of `a.txt`. -/
theorem verbatim_extension_witness :
    ".TXT" ≠ pyLower (pySuffix "a.txt") ∧ "txt" ≠ pyLower (pySuffix "a.txt") :=
  ⟨(verbatim_extension_comparison ".TXT" "a.txt").1 (by decide),
   (verbatim_extension_comparison "txt" "a.txt").2.1 (by decide) (by decide)⟩

/-! ### Directory-creation facts -/

theorem pyMkdir_files (fs : FS) (t : FPath) : (pyMkdir fs t).files = fs.files := rfl

theorem insertNew_sub {ds : List FPath} {q d : FPath} (h : d ∈ ds) : d ∈ insertNew ds q := by
  rw [insertNew]
  split
  · exact h
  · exact List.mem_append_left _ h

theorem self_mem_insertNew (ds : List FPath) (q : FPath) : q ∈ insertNew ds q := by
  rw [insertNew]
  split
  · assumption
  · exact List.mem_append_right _ (by simp)

theorem foldl_insertNew_sub (l : List FPath) (ds : List FPath) (d : FPath) (h : d ∈ ds) :
    d ∈ l.foldl insertNew ds := by
  induction l generalizing ds with
  | nil => exact h
  | cons a l ih => exact ih _ (insertNew_sub h)

theorem foldl_insertNew_mem (l : List FPath) (ds : List FPath) (q : FPath) (h : q ∈ l) :
    q ∈ l.foldl insertNew ds := by
  induction l generalizing ds with
  | nil => cases h
  | cons a l ih =>
    rcases List.mem_cons.mp h with rfl | h
    · exact foldl_insertNew_sub l (insertNew ds q) q (self_mem_insertNew ds q)
    · exact ih _ h

theorem mem_foldl_insertNew {l ds : List FPath} {d : FPath} (h : d ∈ l.foldl insertNew ds) :
    d ∈ ds ∨ d ∈ l := by
  induction l generalizing ds with
  | nil => exact Or.inl h
  | cons a l ih =>
    rcases ih h with hin | hin
    · rw [insertNew] at hin
      split at hin
      · exact Or.inl hin
      · rcases List.mem_append.mp hin with h1 | h1
        · exact Or.inl h1
        · right
          have hda : d = a := by simpa using h1
          rw [hda]
          exact List.mem_cons_self a l
    · right; exact List.mem_cons_of_mem a hin

theorem foldl_insertNew_id (l : List FPath) (ds : List FPath) (h : ∀ q ∈ l, q ∈ ds) :
    l.foldl insertNew ds = ds := by
  induction l generalizing ds with
  | nil => rfl
  | cons a l ih =>
    have ha : insertNew ds a = ds := by
      rw [insertNew, if_pos (h a (by simp))]
    rw [List.foldl_cons, ha]
    exact ih ds (fun q hq => h q (List.mem_cons_of_mem a hq))

theorem pyMkdir_dirs_mono {fs : FS} {t d : FPath} (h : d ∈ fs.dirs) : d ∈ (pyMkdir fs t).dirs :=
  foldl_insertNew_sub _ _ _ h

theorem pyMkdir_ancestors (fs : FS) (t : FPath) (q : FPath) (h : q ∈ ancestorsOf t) :
    q ∈ (pyMkdir fs t).dirs :=
  foldl_insertNew_mem _ _ _ h

theorem self_mem_ancestorsOf (t : FPath) (h : t ≠ []) : t ∈ ancestorsOf t := by
  rw [ancestorsOf]
  have hlen : 0 < t.length := List.length_pos.mpr h
  refine List.mem_map.mpr ⟨t.length - 1, List.mem_range.mpr (by omega), ?_⟩
  have : t.length - 1 + 1 = t.length := by omega
  rw [this, List.take_length]

theorem pyMkdir_id (fs : FS) (t : FPath) (h : ∀ q ∈ ancestorsOf t, q ∈ fs.dirs) :
    pyMkdir fs t = fs := by
  rw [pyMkdir]
  have := foldl_insertNew_id (ancestorsOf t) fs.dirs h
  rw [this]

theorem mem_ancestorsOf_length {t q : FPath} (h : q ∈ ancestorsOf t) : q.length ≤ t.length := by
  rw [ancestorsOf] at h
  obtain ⟨i, hi, rfl⟩ := List.mem_map.mp h
  simp

/-! ### Move-step facts -/

theorem shutilMove_dirs {fs : FS} {src dst : FPath} {fs2 : FS}
    (h : shutilMove fs src dst = .ok fs2) : fs2.dirs = fs.dirs := by
  rw [shutilMove] at h
  split at h
  · split at h
    · cases h
    · split at h
      · cases h
      · cases h; rfl
  · split at h
    · cases h
    · cases h; rfl

theorem moveStep_dirs (o : ErrOracle) (fs : FS) (src dst : FPath) :
    (moveStep o fs src dst).1.dirs = fs.dirs := by
  rw [moveStep]
  split
  · rfl
  · split
    · rfl
    · split
      · rename_i fs2 h
        exact shutilMove_dirs h
      · rfl

theorem moveStep_out (o : ErrOracle) (fs : FS) (src dst : FPath) :
    (moveStep o fs src dst).2 = Outcome.moved dst ∨
      ∃ k, (moveStep o fs src dst).2 = Outcome.failed k := by
  rw [moveStep]
  split
  · exact Or.inr ⟨_, rfl⟩
  · split
    · exact Or.inr ⟨_, rfl⟩
    · split
      · exact Or.inl rfl
      · exact Or.inr ⟨_, rfl⟩

/-! ### Claim C4: same-location short-circuit -/

/-- Claim C4: when a matched candidate file already sits in its rule's
target folder, the phase-2 body returns `skippedSameLocation` after only
the `mkdir` call; the single equation holds for every collision policy and
every filesystem state, so the result does not depend on whether the
proposed destination exists (no collision check) and the file map is
untouched (no move). -/
theorem same_location_short_circuit (o : ErrOracle) (policy : String) (rules : List SortRule)
    (fs : FS) (p : FPath) (r : SortRule) (hr : findRule rules p = some r)
    (hloc : parentOf p = r.target_folder)
    (hmk : o.mkdirFails r.target_folder = false) :
    processFile o policy rules fs p = .ok (pyMkdir fs r.target_folder, .skippedSameLocation) ∧
    (pyMkdir fs r.target_folder).files = fs.files := by
  refine ⟨?_, rfl⟩
  rw [processFile, hr]
  simp only
  rw [if_neg (by rw [hmk]; exact Bool.false_ne_true), if_pos hloc]

/-- Witness for C4: a `.txt` file already inside `T` is short-circuited,
under the `overwrite` policy and with an existing destination entry. -/
theorem same_location_short_circuit_witness :
    processFile noErr "overwrite" [⟨[".txt"], ["T"]⟩]
        ⟨[(["T", "a.txt"], 1)], [["T"]]⟩ ["T", "a.txt"]
      = .ok (pyMkdir ⟨[(["T", "a.txt"], 1)], [["T"]]⟩ ["T"], .skippedSameLocation) :=
  (same_location_short_circuit noErr "overwrite" [⟨[".txt"], ["T"]⟩]
    ⟨[(["T", "a.txt"], 1)], [["T"]]⟩ ["T", "a.txt"] ⟨[".txt"], ["T"]⟩
    (by decide) (by decide) (by decide)).1

/-! ### Claim C9: target folder creation precedes the checks -/

/-- Claim C9: for every matched candidate the rule's target folder and all
its ancestors are created before the same-location and collision checks,
so they exist in the resulting state whatever the outcome — in particular
when the file is skipped (same-location or collision) with the file map
untouched. -/
theorem target_dir_created_before_checks (o : ErrOracle) (policy : String)
    (rules : List SortRule) (fs : FS) (p : FPath) (r : SortRule)
    (hr : findRule rules p = some r) (hmk : o.mkdirFails r.target_folder = false)
    (hne : r.target_folder ≠ []) :
    ∃ fs2 out, processFile o policy rules fs p = .ok (fs2, out) ∧
      r.target_folder ∈ fs2.dirs ∧
      (∀ q ∈ ancestorsOf r.target_folder, q ∈ fs2.dirs) ∧
      ((out = .skippedSameLocation ∨ out = .skippedCollision) → fs2.files = fs.files) := by
  rw [processFile, hr]
  simp only
  rw [if_neg (by rw [hmk]; exact Bool.false_ne_true)]
  have hanc : ∀ q ∈ ancestorsOf r.target_folder, q ∈ (pyMkdir fs r.target_folder).dirs :=
    fun q hq => pyMkdir_ancestors fs _ q hq
  have hself : r.target_folder ∈ (pyMkdir fs r.target_folder).dirs :=
    hanc _ (self_mem_ancestorsOf _ hne)
  have hmv : ∀ dst : FPath,
      ∃ fs2 out, (Except.ok (moveStep o (pyMkdir fs r.target_folder) p dst) :
          Except PyError (FS × Outcome)) = .ok (fs2, out) ∧
        r.target_folder ∈ fs2.dirs ∧
        (∀ q ∈ ancestorsOf r.target_folder, q ∈ fs2.dirs) ∧
        ((out = .skippedSameLocation ∨ out = .skippedCollision) → fs2.files = fs.files) := by
    intro dst
    rcases hms : moveStep o (pyMkdir fs r.target_folder) p dst with ⟨fs2, out⟩
    have hd : fs2.dirs = (pyMkdir fs r.target_folder).dirs := by
      have h0 := moveStep_dirs o (pyMkdir fs r.target_folder) p dst
      rw [hms] at h0
      exact h0
    refine ⟨fs2, out, rfl, by rw [hd]; exact hself,
      fun q hq => by rw [hd]; exact hanc q hq, ?_⟩
    intro hout
    have h0 := moveStep_out o (pyMkdir fs r.target_folder) p dst
    rw [hms] at h0
    exfalso
    rcases h0 with h1 | ⟨k, h1⟩ <;> rcases hout with h2 | h2 <;> rw [h2] at h1 <;> cases h1
  split
  · exact ⟨_, _, rfl, hself, hanc, fun _ => rfl⟩
  · split
    · split
      · exact ⟨_, _, rfl, hself, hanc, fun _ => rfl⟩
      · split
        · exact hmv _
        · split
          · exact hmv _
          · exact hmv _
    · exact hmv _

/-- Witness for C9: the target folder `T` is created even though the file
is skipped for a collision under the `skip` policy. -/
theorem target_dir_created_witness :
    ∃ fs2 out, processFile noErr "skip" [⟨[".txt"], ["T"]⟩]
        ⟨[(["src", "a.txt"], 1), (["T", "a.txt"], 2)], [["src"], ["T"]]⟩ ["src", "a.txt"]
        = .ok (fs2, out) ∧
      (["T"] : FPath) ∈ fs2.dirs ∧
      (∀ q ∈ ancestorsOf ["T"], q ∈ fs2.dirs) ∧
      ((out = .skippedSameLocation ∨ out = .skippedCollision) →
        fs2.files = [(["src", "a.txt"], 1), (["T", "a.txt"], 2)]) :=
  target_dir_created_before_checks noErr "skip" [⟨[".txt"], ["T"]⟩]
    ⟨[(["src", "a.txt"], 1), (["T", "a.txt"], 2)], [["src"], ["T"]]⟩ ["src", "a.txt"]
    ⟨[".txt"], ["T"]⟩ (by decide) (by decide) (by decide)

/-! ### Claim C7: invalid source directory -/

/-- Counterexample to claim C7 as stated: with an intact configuration and
a source path that does not exist, `sort_files` does not fail with
`NotADirectoryError` — it reports the problem and returns normally (the
`sourceMissing` exit), as the Python code prints an error message and
executes a plain `return`. -/
theorem source_invalid_no_raise_cex :
    sort_files (some ⟨[⟨[".txt"], ["T"]⟩], "skip", true, []⟩) ["missing"]
        ⟨[(["other", "a.txt"], 1)], [["other"]]⟩ noErr
      = ⟨⟨[(["other", "a.txt"], 1)], [["other"]]⟩, RunExit.sourceMissing, []⟩ ∧
    ∀ e : PyError,
      (sort_files (some ⟨[⟨[".txt"], ["T"]⟩], "skip", true, []⟩) ["missing"]
          ⟨[(["other", "a.txt"], 1)], [["other"]]⟩ noErr).exit
        ≠ RunExit.raised e := by
  have h : sort_files (some ⟨[⟨[".txt"], ["T"]⟩], "skip", true, []⟩) ["missing"]
      ⟨[(["other", "a.txt"], 1)], [["other"]]⟩ noErr
      = ⟨⟨[(["other", "a.txt"], 1)], [["other"]]⟩, RunExit.sourceMissing, []⟩ := by decide
  refine ⟨h, ?_⟩
  intro e hcontra
  rw [h] at hcontra
  exact RunExit.noConfusion hcontra

/-- Amended claim C7: for every source path that does not exist or is not
a directory, the run aborts before scanning with an error report and a
normal return — no exception is raised — and no filesystem mutation
occurs (the state is returned unchanged and no outcome is produced). -/
theorem source_invalid_aborts (sc : SorterConfig) (src : FPath) (fs : FS) (o : ErrOracle)
    (h : src ∉ fs.dirs) :
    sort_files (some sc) src fs o = ⟨fs, RunExit.sourceMissing, []⟩ := by
  rw [sort_files]
  rw [if_neg h]

/-- Witness for the amended C7 at a concrete input. -/
theorem source_invalid_aborts_witness :
    sort_files (some ⟨[⟨[".pdf"], ["Docs"]⟩], "skip", false, []⟩) ["gone"]
        ⟨[], [["somewhere"]]⟩ noErr
      = ⟨⟨[], [["somewhere"]]⟩, RunExit.sourceMissing, []⟩ :=
  source_invalid_aborts ⟨[⟨[".pdf"], ["Docs"]⟩], "skip", false, []⟩ ["gone"]
    ⟨[], [["somewhere"]]⟩ noErr (by decide)

/-! ### Claim C2: the rename policy picks the least free counter -/

theorem renameCandidate_inj {stem sfx : String} {m n : Nat}
    (h : renameCandidate stem sfx m = renameCandidate stem sfx n) : m = n := by
  apply natRepr_inj
  apply String.ext
  rw [renameCandidate, renameCandidate] at h
  have hd := congrArg String.data h
  simp only [String.data_append] at hd
  have h1 := List.append_cancel_right hd
  have h2 := List.append_cancel_right h1
  exact List.append_cancel_left h2

theorem assocFind_isSome_mem {es : List (FPath × Nat)} {p : FPath}
    (h : (assocFind es p).isSome = true) : p ∈ es.map Prod.fst := by
  induction es with
  | nil => rw [assocFind] at h; cases h
  | cons e es ih =>
    rw [assocFind] at h
    by_cases he : e.1 = p
    · rw [List.map_cons, he]
      exact List.mem_cons_self _ _
    · rw [if_neg he] at h
      exact List.mem_cons_of_mem _ (ih h)

/-- Everything that exists lies among the finitely many recorded entries. -/
theorem existsAt_mem_allPaths {fs : FS} {p : FPath} (h : existsAt fs p) :
    p ∈ fileKeys fs ++ fs.dirs := by
  rcases h with hf | hd
  · exact List.mem_append_left _ (assocFind_isSome_mem hf)
  · exact List.mem_append_right _ hd

/-- Pigeonhole: among the first `fsSize fs + 1` rename candidates at least
one path does not exist, because the candidate paths are pairwise distinct
while the filesystem has only `fsSize fs` entries. -/
theorem exists_free_candidate (fs : FS) (target : FPath) (stem sfx : String) :
    ∃ k, 1 ≤ k ∧ k < 1 + (fsSize fs + 1) ∧
      ¬ existsAt fs (target ++ [renameCandidate stem sfx k]) := by
  by_contra hcon
  push_neg at hcon
  set f : Nat → FPath := fun i => target ++ [renameCandidate stem sfx (i + 1)] with hf
  have hinj : Function.Injective f := by
    intro i j hij
    rw [hf] at hij
    simp only at hij
    have := List.append_cancel_left hij
    have hcand : renameCandidate stem sfx (i + 1) = renameCandidate stem sfx (j + 1) := by
      simpa using this
    have := renameCandidate_inj hcand
    omega
  set L : List FPath := (List.range (fsSize fs + 1)).map f with hL
  have hnodup : L.Nodup := List.Nodup.map hinj (List.nodup_range _)
  have hsub : ∀ q ∈ L, q ∈ fileKeys fs ++ fs.dirs := by
    intro q hq
    rw [hL] at hq
    obtain ⟨i, hi, rfl⟩ := List.mem_map.mp hq
    rw [List.mem_range] at hi
    exact existsAt_mem_allPaths (hcon (i + 1) (by omega) (by omega))
  have hcard1 : L.toFinset.card = fsSize fs + 1 := by
    rw [List.toFinset_card_of_nodup hnodup, hL]
    simp
  have hsub2 : L.toFinset ⊆ (fileKeys fs ++ fs.dirs).toFinset := by
    intro q hq
    rw [List.mem_toFinset] at hq
    rw [List.mem_toFinset]
    exact hsub q hq
  have hcard2 : (fileKeys fs ++ fs.dirs).toFinset.card ≤ fsSize fs := by
    calc (fileKeys fs ++ fs.dirs).toFinset.card ≤ (fileKeys fs ++ fs.dirs).length :=
          List.toFinset_card_le _
      _ = fsSize fs := by rw [List.length_append, fsSize, fileKeys, List.length_map]
  have := Finset.card_le_card hsub2
  omega

/-- The rename loop returns the candidate with the least free counter at
or above the starting counter, provided some counter below the fuel bound
is free. -/
theorem renameLoop_finds_free (fs : FS) (target : FPath) (stem sfx : String) :
    ∀ fuel start : Nat,
      (∃ k, start ≤ k ∧ k < start + fuel ∧
        ¬ existsAt fs (target ++ [renameCandidate stem sfx k])) →
      ∃ m, start ≤ m ∧
        ¬ existsAt fs (target ++ [renameCandidate stem sfx m]) ∧
        (∀ k, start ≤ k → k < m → existsAt fs (target ++ [renameCandidate stem sfx k])) ∧
        renameLoop fs target stem sfx fuel start = target ++ [renameCandidate stem sfx m] := by
  intro fuel
  induction fuel with
  | zero =>
    intro start ⟨k, hk1, hk2, _⟩
    omega
  | succ f ih =>
    intro start hex
    by_cases hocc : existsAt fs (target ++ [renameCandidate stem sfx start])
    · have hex2 : ∃ k, start + 1 ≤ k ∧ k < start + 1 + f ∧
          ¬ existsAt fs (target ++ [renameCandidate stem sfx k]) := by
        obtain ⟨k, hk1, hk2, hk3⟩ := hex
        refine ⟨k, ?_, by omega, hk3⟩
        rcases Nat.eq_or_lt_of_le hk1 with rfl | hlt
        · exact absurd hocc hk3
        · omega
      obtain ⟨m, hm1, hm2, hm3, hm4⟩ := ih (start + 1) hex2
      refine ⟨m, by omega, hm2, ?_, ?_⟩
      · intro k hk1 hk2
        rcases Nat.eq_or_lt_of_le hk1 with rfl | hlt
        · exact hocc
        · exact hm3 k (by omega) hk2
      · rw [renameLoop, if_pos hocc]
        exact hm4
    · refine ⟨start, le_rfl, hocc, fun k hk1 hk2 => by omega, ?_⟩
      rw [renameLoop, if_neg hocc]

/-- Claim C2: under collision policy `rename`, when the proposed
destination exists the phase-2 body hands the move the candidate path
`{stem}({n}){suffix}` for the LEAST n in 1, 2, 3, … whose path does not
exist; such an n always exists because the filesystem is finite (the
fuel of the embedded loop is never exhausted), which is the termination
guarantee of the claim. -/
theorem rename_resolves_least_free (o : ErrOracle) (rules : List SortRule) (fs : FS)
    (p : FPath) (r : SortRule)
    (hr : findRule rules p = some r) (hmk : o.mkdirFails r.target_folder = false)
    (hloc : parentOf p ≠ r.target_folder)
    (hex : existsAt (pyMkdir fs r.target_folder) (r.target_folder ++ [lastName p])) :
    ∃ n, 1 ≤ n ∧
      ¬ existsAt (pyMkdir fs r.target_folder)
        (r.target_folder ++ [renameCandidate (pyStem (lastName p)) (pySuffix (lastName p)) n]) ∧
      (∀ k, 1 ≤ k → k < n →
        existsAt (pyMkdir fs r.target_folder)
          (r.target_folder ++ [renameCandidate (pyStem (lastName p)) (pySuffix (lastName p)) k])) ∧
      processFile o "rename" rules fs p
        = .ok (moveStep o (pyMkdir fs r.target_folder) p
            (r.target_folder ++
              [renameCandidate (pyStem (lastName p)) (pySuffix (lastName p)) n])) := by
  obtain ⟨k, hk1, hk2, hk3⟩ :=
    exists_free_candidate (pyMkdir fs r.target_folder) r.target_folder
      (pyStem (lastName p)) (pySuffix (lastName p))
  obtain ⟨m, hm1, hm2, hm3, hm4⟩ :=
    renameLoop_finds_free (pyMkdir fs r.target_folder) r.target_folder
      (pyStem (lastName p)) (pySuffix (lastName p)) (fsSize (pyMkdir fs r.target_folder) + 1) 1
      ⟨k, hk1, hk2, hk3⟩
  refine ⟨m, hm1, hm2, fun k2 h1 h2 => hm3 k2 h1 h2, ?_⟩
  rw [processFile, hr]
  simp only
  rw [if_neg (by rw [hmk]; exact Bool.false_ne_true), if_neg hloc, if_pos hex,
    if_neg (by decide : ¬("rename" : String) = "skip"),
    if_neg (by decide : ¬("rename" : String) = "overwrite"),
    if_pos trivial, hm4]

/-- Witness for C2 at the spec's concrete scenario: with `a.txt` and
`a(1).txt` already present in the target folder `T`, resolving another
`a.txt` yields `a(2).txt` — a path that did not previously exist — and
the file is moved there. -/
theorem rename_resolves_least_free_witness :
    (∃ n, 1 ≤ n ∧
      ¬ existsAt (pyMkdir ⟨[(["src", "a.txt"], 1), (["T", "a.txt"], 2), (["T", "a(1).txt"], 3)],
          [["src"], ["T"]]⟩ ["T"])
        (["T"] ++ [renameCandidate (pyStem (lastName ["src", "a.txt"]))
          (pySuffix (lastName ["src", "a.txt"])) n]) ∧
      (∀ k, 1 ≤ k → k < n →
        existsAt (pyMkdir ⟨[(["src", "a.txt"], 1), (["T", "a.txt"], 2), (["T", "a(1).txt"], 3)],
            [["src"], ["T"]]⟩ ["T"])
          (["T"] ++ [renameCandidate (pyStem (lastName ["src", "a.txt"]))
            (pySuffix (lastName ["src", "a.txt"])) k])) ∧
      processFile noErr "rename" [⟨[".txt"], ["T"]⟩]
          ⟨[(["src", "a.txt"], 1), (["T", "a.txt"], 2), (["T", "a(1).txt"], 3)], [["src"], ["T"]]⟩
          ["src", "a.txt"]
        = .ok (moveStep noErr
            (pyMkdir ⟨[(["src", "a.txt"], 1), (["T", "a.txt"], 2), (["T", "a(1).txt"], 3)],
              [["src"], ["T"]]⟩ ["T"])
            ["src", "a.txt"]
            (["T"] ++ [renameCandidate (pyStem (lastName ["src", "a.txt"]))
              (pySuffix (lastName ["src", "a.txt"])) n]))) ∧
    processFile noErr "rename" [⟨[".txt"], ["T"]⟩]
        ⟨[(["src", "a.txt"], 1), (["T", "a.txt"], 2), (["T", "a(1).txt"], 3)], [["src"], ["T"]]⟩
        ["src", "a.txt"]
      = .ok (⟨[(["T", "a.txt"], 2), (["T", "a(1).txt"], 3), (["T", "a(2).txt"], 1)],
          [["src"], ["T"]]⟩, .moved ["T", "a(2).txt"]) :=
  ⟨rename_resolves_least_free noErr [⟨[".txt"], ["T"]⟩]
      ⟨[(["src", "a.txt"], 1), (["T", "a.txt"], 2), (["T", "a(1).txt"], 3)], [["src"], ["T"]]⟩
      ["src", "a.txt"] ⟨[".txt"], ["T"]⟩ (by decide) (by decide) (by decide) (by decide),
    by decide⟩

/-! ### Claim C1: two-pass isolation -/

theorem processAll_completed_sources (o : ErrOracle) (policy : String) (rules : List SortRule) :
    ∀ (fs : FS) (ps : List FPath),
      (processAll o policy rules fs ps).exit = RunExit.completed →
      (processAll o policy rules fs ps).outcomes.map Prod.fst = ps := by
  intro fs ps
  induction ps generalizing fs with
  | nil => intro _; rfl
  | cons p ps ih =>
    intro hex
    rw [processAll] at hex ⊢
    cases hpf : processFile o policy rules fs p with
    | error e =>
      rw [hpf] at hex
      exact absurd hex (by simp)
    | ok pr =>
      rcases pr with ⟨fs2, out⟩
      rw [hpf] at hex
      have hex2 : (processAll o policy rules fs2 ps).exit = RunExit.completed := hex
      show p :: (processAll o policy rules fs2 ps).outcomes.map Prod.fst = p :: ps
      rw [ih fs2 hex2]

/-- Claim C1: the candidate list is materialized from the pre-run state
before any mutation begins — whenever a run completes, its per-file
outcomes are exactly one per element of the scan of the INITIAL
filesystem state, in scan order, so the processed list does not depend on
the moves performed during the classify/resolve/move phase; and as the
scan is a pure function of the state, scanning a fixed tree twice without
mutation yields identical lists. -/
theorem two_pass_outcomes_eq_initial_scan (sc : SorterConfig) (src : FPath) (fs : FS)
    (o : ErrOracle)
    (hexit : (sort_files (some sc) src fs o).exit = RunExit.completed) :
    (sort_files (some sc) src fs o).outcomes.map Prod.fst
      = pyScan fs src sc.recursive_scan sc.ignore_patterns := by
  rw [sort_files] at hexit ⊢
  by_cases hdir : src ∈ fs.dirs
  · rw [if_pos hdir] at hexit ⊢
    exact processAll_completed_sources o _ _ fs _ hexit
  · rw [if_neg hdir] at hexit
    exact absurd hexit (by simp)

/-- Witness for C1: a completed concrete run whose outcome sources equal
the initial scan. -/
theorem two_pass_witness :
    (sort_files (some ⟨[⟨[".pdf"], ["Docs"]⟩], "skip", false, []⟩) ["src"]
        ⟨[(["src", "r.pdf"], 1), (["src", "n.txt"], 2)], [["src"]]⟩ noErr).outcomes.map Prod.fst
      = pyScan ⟨[(["src", "r.pdf"], 1), (["src", "n.txt"], 2)], [["src"]]⟩ ["src"] false [] :=
  two_pass_outcomes_eq_initial_scan ⟨[⟨[".pdf"], ["Docs"]⟩], "skip", false, []⟩ ["src"]
    ⟨[(["src", "r.pdf"], 1), (["src", "n.txt"], 2)], [["src"]]⟩ noErr (by decide)

/-! ### Claim C8: error isolation -/

/-- When no `mkdir` call fails, the phase-2 body never raises, whatever
move failures occur: every branch of the loop body ends in a caught state. -/
theorem processFile_ok (o : ErrOracle) (policy : String) (rules : List SortRule)
    (fs : FS) (p : FPath) (hmk : ∀ t, o.mkdirFails t = false) :
    ∃ fs2 out, processFile o policy rules fs p = .ok (fs2, out) := by
  cases hres : processFile o policy rules fs p with
  | ok pr =>
    rcases pr with ⟨fs2, out⟩
    exact ⟨fs2, out, rfl⟩
  | error e =>
    exfalso
    rw [processFile] at hres
    cases hfr : findRule rules p with
    | none => rw [hfr] at hres; cases hres
    | some r =>
      rw [hfr] at hres
      simp only at hres
      rw [if_neg (by rw [hmk r.target_folder]; exact Bool.false_ne_true)] at hres
      split at hres
      · cases hres
      · split at hres
        · split at hres
          · cases hres
          · split at hres
            · cases hres
            · split at hres
              · cases hres
              · cases hres
        · cases hres

theorem processAll_completed_of_no_mkdir (o : ErrOracle) (policy : String)
    (rules : List SortRule) (hmk : ∀ t, o.mkdirFails t = false) :
    ∀ (fs : FS) (ps : List FPath),
      (processAll o policy rules fs ps).exit = RunExit.completed := by
  intro fs ps
  induction ps generalizing fs with
  | nil => rfl
  | cons p ps ih =>
    rw [processAll]
    obtain ⟨fs2, out, hok⟩ := processFile_ok o policy rules fs p hmk
    rw [hok]
    exact ih fs2

/-- A move that fails leaves the filesystem exactly as it was. -/
theorem moveStep_failed {o : ErrOracle} {fs : FS} {src dst : FPath} {fs2 : FS} {k : MoveFailure}
    (h : moveStep o fs src dst = (fs2, .failed k)) : fs2 = fs := by
  rw [moveStep] at h
  split at h
  · cases h; rfl
  · split at h
    · cases h; rfl
    · split at h
      · injection h with h1 h2
        cases h2
      · cases h; rfl

/-- A per-file failure is isolated: the phase-2 body reports `failed` for
that file with the file map unchanged. -/
theorem processFile_failed_files {o : ErrOracle} {policy : String} {rules : List SortRule}
    {fs : FS} {p : FPath} {fs2 : FS} {k : MoveFailure}
    (h : processFile o policy rules fs p = .ok (fs2, .failed k)) : fs2.files = fs.files := by
  rw [processFile] at h
  cases hfr : findRule rules p with
  | none =>
    rw [hfr] at h
    injection h with h1
    injection h1 with h2 h3
    cases h3
  | some r =>
    rw [hfr] at h
    simp only at h
    split at h
    · cases h
    · split at h
      · injection h with h1
        injection h1 with h2 h3
        cases h3
      · split at h
        · split at h
          · injection h with h1
            injection h1 with h2 h3
            cases h3
          · split at h
            · injection h with h1
              have h2 := moveStep_failed h1
              rw [h2]
              exact pyMkdir_files fs r.target_folder
            · split at h
              · injection h with h1
                have h2 := moveStep_failed h1
                rw [h2]
                exact pyMkdir_files fs r.target_folder
              · injection h with h1
                have h2 := moveStep_failed h1
                rw [h2]
                exact pyMkdir_files fs r.target_folder
        · injection h with h1
          have h2 := moveStep_failed h1
          rw [h2]
          exact pyMkdir_files fs r.target_folder

/-- Counterexample to claim C8 as stated: a failure of the destination
directory creation is NOT treated as a per-file error — the `mkdir` call
sits outside the `try` block, so the exception escapes `sort_files` and
aborts the whole run: with two candidate files and a failing `mkdir` on
the target `T`, the run exits raised with NO outcome recorded, and the
second file is never processed. -/
theorem mkdir_failure_aborts_cex :
    sort_files (some ⟨[⟨[".txt"], ["T"]⟩], "skip", true, []⟩) ["src"]
        ⟨[(["src", "a.txt"], 1), (["src", "b.txt"], 2)], [["src"]]⟩
        ⟨fun t => decide (t = ["T"]), fun _ _ => false, fun _ _ => false⟩
      = ⟨⟨[(["src", "a.txt"], 1), (["src", "b.txt"], 2)], [["src"]]⟩,
          RunExit.raised (.mkdirFailed ["T"]), []⟩ := by decide

/-- Amended claim C8: per-file MOVE errors (permission denied or any
other failure of `shutil.move`) never abort the run — provided no
destination-directory creation fails, the run always completes, every
scanned candidate receives an outcome, and a failed move leaves the file
map untouched; a destination-directory creation failure, by contrast, is
an uncaught exception that aborts the run (see the counterexample). -/
theorem move_errors_isolated (o : ErrOracle) (sc : SorterConfig) (src : FPath) (fs : FS)
    (hmk : ∀ t, o.mkdirFails t = false) (hdir : src ∈ fs.dirs) :
    (sort_files (some sc) src fs o).exit = RunExit.completed ∧
    (sort_files (some sc) src fs o).outcomes.map Prod.fst
      = pyScan fs src sc.recursive_scan sc.ignore_patterns ∧
    (∀ (fs1 : FS) (p : FPath) (fs2 : FS) (k : MoveFailure),
      processFile o sc.collision_policy sc.rules fs1 p = .ok (fs2, .failed k) →
      fs2.files = fs1.files) := by
  have hex : (sort_files (some sc) src fs o).exit = RunExit.completed := by
    rw [sort_files, if_pos hdir]
    exact processAll_completed_of_no_mkdir o _ _ hmk fs _
  exact ⟨hex, two_pass_outcomes_eq_initial_scan sc src fs o hex,
    fun fs1 p fs2 k h => processFile_failed_files h⟩

/-- Witness for the amended C8: a run in which the only candidate's move
fails with a permission error still completes, records the failure, and
leaves the file in place. -/
theorem move_errors_isolated_witness :
    (sort_files (some ⟨[⟨[".txt"], ["T"]⟩], "skip", true, []⟩) ["src"]
        ⟨[(["src", "a.txt"], 1)], [["src"]]⟩
        ⟨fun _ => false, fun _ _ => true, fun _ _ => false⟩).exit = RunExit.completed ∧
    (sort_files (some ⟨[⟨[".txt"], ["T"]⟩], "skip", true, []⟩) ["src"]
        ⟨[(["src", "a.txt"], 1)], [["src"]]⟩
        ⟨fun _ => false, fun _ _ => true, fun _ _ => false⟩).outcomes.map Prod.fst
      = pyScan ⟨[(["src", "a.txt"], 1)], [["src"]]⟩ ["src"] true [] ∧
    (∀ (fs1 : FS) (p : FPath) (fs2 : FS) (k : MoveFailure),
      processFile ⟨fun _ => false, fun _ _ => true, fun _ _ => false⟩ "skip"
          [⟨[".txt"], ["T"]⟩] fs1 p = .ok (fs2, .failed k) →
      fs2.files = fs1.files) :=
  move_errors_isolated ⟨fun _ => false, fun _ _ => true, fun _ _ => false⟩
    ⟨[⟨[".txt"], ["T"]⟩], "skip", true, []⟩ ["src"]
    ⟨[(["src", "a.txt"], 1)], [["src"]]⟩ (fun _ => rfl) (by decide)

/-! ### Association-list facts for the skip-policy analysis -/

theorem assocFind_append (l m : List (FPath × Nat)) (q : FPath) :
    assocFind (l ++ m) q
      = match assocFind l q with
        | some c => some c
        | none => assocFind m q := by
  induction l with
  | nil => rfl
  | cons e l ih =>
    by_cases he : e.1 = q
    · rw [List.cons_append, assocFind, if_pos he, assocFind, if_pos he]
    · rw [List.cons_append, assocFind, if_neg he, assocFind, if_neg he, ih]

theorem assocErase_find_neq {es : List (FPath × Nat)} {p q : FPath} (h : q ≠ p) :
    assocFind (assocErase es p) q = assocFind es q := by
  induction es with
  | nil => rfl
  | cons e es ih =>
    by_cases he : e.1 = p
    · rw [assocErase, if_pos he, ih, assocFind, if_neg (by rw [he]; exact fun hc => h hc.symm)]
    · by_cases heq : e.1 = q
      · rw [assocErase, if_neg he, assocFind, if_pos heq, assocFind, if_pos heq]
      · rw [assocErase, if_neg he, assocFind, if_neg heq, assocFind, if_neg heq, ih]

theorem assocErase_find_self (es : List (FPath × Nat)) (p : FPath) :
    assocFind (assocErase es p) p = none := by
  induction es with
  | nil => rfl
  | cons e es ih =>
    by_cases he : e.1 = p
    · rw [assocErase, if_pos he, ih]
    · rw [assocErase, if_neg he, assocFind, if_neg he, ih]

theorem mem_fileKeys_isSome {es : List (FPath × Nat)} {q : FPath}
    (h : q ∈ es.map Prod.fst) : (assocFind es q).isSome = true := by
  induction es with
  | nil => cases h
  | cons e es ih =>
    by_cases he : e.1 = q
    · rw [assocFind, if_pos he]; rfl
    · rw [assocFind, if_neg he]
      rcases List.mem_cons.mp h with h1 | h1
      · exact absurd h1.symm he
      · exact ih h1

theorem lastName_concat (l : FPath) (x : String) : lastName (l ++ [x]) = x := by
  rw [lastName, List.getLastD_eq_getLast?, List.getLast?_concat]
  rfl

theorem parentOf_concat (l : FPath) (x : String) : parentOf (l ++ [x]) = l :=
  List.dropLast_concat

/-! ### Characterization of one skip-policy step without failures -/

theorem skip_step_cases {rules : List SortRule} {fs : FS} {p : FPath} {fs2 : FS} {out : Outcome}
    (h : processFile noErr "skip" rules fs p = .ok (fs2, out)) :
    (findRule rules p = none ∧ fs2 = fs ∧ out = .skippedNoRule) ∨
    (∃ r, findRule rules p = some r ∧ parentOf p = r.target_folder ∧
      fs2 = pyMkdir fs r.target_folder ∧ out = .skippedSameLocation) ∨
    (∃ r, findRule rules p = some r ∧ parentOf p ≠ r.target_folder ∧
      existsAt (pyMkdir fs r.target_folder) (r.target_folder ++ [lastName p]) ∧
      fs2 = pyMkdir fs r.target_folder ∧ out = .skippedCollision) ∨
    (∃ r c, findRule rules p = some r ∧ parentOf p ≠ r.target_folder ∧
      ¬ existsAt (pyMkdir fs r.target_folder) (r.target_folder ++ [lastName p]) ∧
      assocFind fs.files p = some c ∧
      fs2 = ⟨assocErase (assocErase fs.files p) (r.target_folder ++ [lastName p])
          ++ [(r.target_folder ++ [lastName p], c)],
        (pyMkdir fs r.target_folder).dirs⟩ ∧
      out = .moved (r.target_folder ++ [lastName p])) ∨
    (∃ r, findRule rules p = some r ∧ parentOf p ≠ r.target_folder ∧
      ¬ existsAt (pyMkdir fs r.target_folder) (r.target_folder ++ [lastName p]) ∧
      assocFind fs.files p = none ∧
      fs2 = pyMkdir fs r.target_folder ∧ out = .failed .srcMissing) := by
  rw [processFile] at h
  cases hfr : findRule rules p with
  | none =>
    rw [hfr] at h
    injection h with h1
    injection h1 with h2 h3
    exact Or.inl ⟨rfl, h2.symm, h3.symm⟩
  | some r =>
    rw [hfr] at h
    simp only at h
    split at h
    · rename_i hcond
      exact absurd hcond (by simp [noErr])
    · split at h
      · rename_i hloc
        injection h with h1
        injection h1 with h2 h3
        exact Or.inr (Or.inl ⟨r, rfl, hloc, h2.symm, h3.symm⟩)
      · rename_i hloc
        split at h
        · rename_i hex
          split at h
          · injection h with h1
            injection h1 with h2 h3
            exact Or.inr (Or.inr (Or.inl ⟨r, rfl, hloc, hex, h2.symm, h3.symm⟩))
          · rename_i hpol
            exact absurd trivial hpol
        · rename_i hex
          rw [moveStep] at h
          rw [if_neg (by simp [noErr] : ¬noErr.movePermFails p (r.target_folder ++ [lastName p]) = true)] at h
          rw [if_neg (by simp [noErr] : ¬noErr.moveFailsOther p (r.target_folder ++ [lastName p]) = true)] at h
          rw [shutilMove] at h
          have hdirs : (r.target_folder ++ [lastName p]) ∉ (pyMkdir fs r.target_folder).dirs := by
            intro hcon
            exact hex (Or.inr hcon)
          rw [if_neg hdirs] at h
          cases hsrc : assocFind (pyMkdir fs r.target_folder).files p with
          | none =>
            rw [hsrc] at h
            injection h with h1
            injection h1 with h2 h3
            refine Or.inr (Or.inr (Or.inr (Or.inr ⟨r, rfl, hloc, hex, hsrc, h2.symm, h3.symm⟩)))
          | some c =>
            rw [hsrc] at h
            injection h with h1
            injection h1 with h2 h3
            refine Or.inr (Or.inr (Or.inr (Or.inl ⟨r, c, rfl, hloc, hex, hsrc, ?_, h3.symm⟩)))
            rw [← h2]
            rfl

/-! ### Persistence of files and directories across skip-policy steps -/

theorem skip_step_preserves_other {rules : List SortRule} {fs : FS} {p : FPath}
    {fs2 : FS} {out : Outcome} {q : FPath} {c : Nat}
    (h : processFile noErr "skip" rules fs p = .ok (fs2, out)) (hq : q ≠ p)
    (hfind : assocFind fs.files q = some c) : assocFind fs2.files q = some c := by
  rcases skip_step_cases h with
    ⟨_, rfl, _⟩ | ⟨r, _, _, rfl, _⟩ | ⟨r, _, _, _, rfl, _⟩ |
    ⟨r, cc, _, _, hex, hsrc, rfl, _⟩ | ⟨r, _, _, _, _, rfl, _⟩
  · exact hfind
  · exact hfind
  · exact hfind
  · have hqdst : q ≠ r.target_folder ++ [lastName p] := by
      intro hcon
      apply hex
      left
      rw [pyMkdir_files]
      rw [hcon] at hfind
      rw [hfind]
      rfl
    show assocFind (assocErase (assocErase fs.files p) (r.target_folder ++ [lastName p])
        ++ [(r.target_folder ++ [lastName p], cc)]) q = some c
    rw [assocFind_append, assocErase_find_neq hqdst, assocErase_find_neq hq, hfind]
  · exact hfind

theorem skip_step_preserves_settled {rules : List SortRule} {fs : FS} {p : FPath}
    {fs2 : FS} {out : Outcome} {q : FPath} {c : Nat}
    (h : processFile noErr "skip" rules fs p = .ok (fs2, out)) (hset : settled rules q)
    (hfind : assocFind fs.files q = some c) : assocFind fs2.files q = some c := by
  by_cases hq : q = p
  · subst hq
    rcases skip_step_cases h with
      ⟨_, rfl, _⟩ | ⟨r, _, _, rfl, _⟩ | ⟨r, _, _, _, rfl, _⟩ |
      ⟨r, cc, hr, hloc, _, _, rfl, _⟩ | ⟨r, _, _, _, _, rfl, _⟩
    · exact hfind
    · exact hfind
    · exact hfind
    · exact absurd (hset r hr) hloc
    · exact hfind
  · exact skip_step_preserves_other h hq hfind

theorem skip_step_dirs_mono {rules : List SortRule} {fs : FS} {p : FPath}
    {fs2 : FS} {out : Outcome} {d : FPath}
    (h : processFile noErr "skip" rules fs p = .ok (fs2, out)) (hd : d ∈ fs.dirs) :
    d ∈ fs2.dirs := by
  rcases skip_step_cases h with
    ⟨_, rfl, _⟩ | ⟨r, _, _, rfl, _⟩ | ⟨r, _, _, _, rfl, _⟩ |
    ⟨r, cc, _, _, _, _, rfl, _⟩ | ⟨r, _, _, _, _, rfl, _⟩
  · exact hd
  · exact pyMkdir_dirs_mono hd
  · exact pyMkdir_dirs_mono hd
  · exact pyMkdir_dirs_mono hd
  · exact pyMkdir_dirs_mono hd

/-- Destination paths of matched names are settled, so once such a path
exists it keeps existing across skip-policy steps. -/
theorem skip_step_preserves_blocker {rules : List SortRule} {fs : FS} {p : FPath}
    {fs2 : FS} {out : Outcome} {fname : String} {r : SortRule}
    (h : processFile noErr "skip" rules fs p = .ok (fs2, out))
    (hr : ruleFor rules fname = some r)
    (hex : existsAt fs (r.target_folder ++ [fname])) :
    existsAt fs2 (r.target_folder ++ [fname]) := by
  rcases hex with hfile | hdir
  · left
    obtain ⟨c, hc⟩ := Option.isSome_iff_exists.mp hfile
    have hset : settled rules (r.target_folder ++ [fname]) := by
      intro r2 hr2
      rw [lastName_concat] at hr2
      rw [hr] at hr2
      cases hr2
      exact parentOf_concat _ _
    rw [skip_step_preserves_settled h hset hc]
    rfl
  · exact Or.inr (skip_step_dirs_mono h hdir)

theorem skip_step_preserves_blockedOrSettled {rules : List SortRule} {fs : FS} {p : FPath}
    {fs2 : FS} {out : Outcome} {q : FPath}
    (h : processFile noErr "skip" rules fs p = .ok (fs2, out))
    (hbs : blockedOrSettled rules fs q) : blockedOrSettled rules fs2 q := by
  rcases hbs with hset | ⟨r, hr, hex⟩
  · exact Or.inl hset
  · exact Or.inr ⟨r, hr, skip_step_preserves_blocker h hr hex⟩

theorem skip_step_preserves_dirsReady {rules : List SortRule} {fs : FS} {p : FPath}
    {fs2 : FS} {out : Outcome} {q : FPath}
    (h : processFile noErr "skip" rules fs p = .ok (fs2, out))
    (hdr : dirsReady rules fs q) : dirsReady rules fs2 q :=
  fun r hr a ha => skip_step_dirs_mono h (hdr r hr a ha)

/-! ### Run-level persistence under the skip policy -/

theorem skip_run_preserves_other (rules : List SortRule) :
    ∀ (ps : List FPath) (fs : FS) (q : FPath) (c : Nat), q ∉ ps →
      assocFind fs.files q = some c →
      assocFind (processAll noErr "skip" rules fs ps).fs.files q = some c := by
  intro ps
  induction ps with
  | nil => intro fs q c _ hf; exact hf
  | cons p ps ih =>
    intro fs q c hq hf
    obtain ⟨fs2, out, hok⟩ := processFile_ok noErr "skip" rules fs p (fun _ => rfl)
    rw [processAll, hok]
    have hq1 : q ≠ p := fun hc => hq (hc ▸ List.mem_cons_self p ps)
    have hq2 : q ∉ ps := fun hc => hq (List.mem_cons_of_mem p hc)
    exact ih fs2 q c hq2 (skip_step_preserves_other hok hq1 hf)

theorem skip_run_preserves_settled (rules : List SortRule) :
    ∀ (ps : List FPath) (fs : FS) (q : FPath) (c : Nat), settled rules q →
      assocFind fs.files q = some c →
      assocFind (processAll noErr "skip" rules fs ps).fs.files q = some c := by
  intro ps
  induction ps with
  | nil => intro fs q c _ hf; exact hf
  | cons p ps ih =>
    intro fs q c hset hf
    obtain ⟨fs2, out, hok⟩ := processFile_ok noErr "skip" rules fs p (fun _ => rfl)
    rw [processAll, hok]
    exact ih fs2 q c hset (skip_step_preserves_settled hok hset hf)

theorem skip_run_dirs_mono (rules : List SortRule) :
    ∀ (ps : List FPath) (fs : FS) (d : FPath), d ∈ fs.dirs →
      d ∈ (processAll noErr "skip" rules fs ps).fs.dirs := by
  intro ps
  induction ps with
  | nil => intro fs d hd; exact hd
  | cons p ps ih =>
    intro fs d hd
    obtain ⟨fs2, out, hok⟩ := processFile_ok noErr "skip" rules fs p (fun _ => rfl)
    rw [processAll, hok]
    exact ih fs2 d (skip_step_dirs_mono hok hd)

/-- A file whose matched rule's destination exists during its own step and
that is not processed again keeps its content; used for claim C6. -/
theorem skip_run_tracks_file (rules : List SortRule) :
    ∀ (ps : List FPath) (fs : FS) (p : FPath) (r : SortRule) (csrc cdst : Nat),
      ps.Nodup → p ∈ ps →
      ruleFor rules (lastName p) = some r →
      parentOf p ≠ r.target_folder →
      assocFind fs.files p = some csrc →
      assocFind fs.files (r.target_folder ++ [lastName p]) = some cdst →
      assocFind (processAll noErr "skip" rules fs ps).fs.files p = some csrc ∧
      assocFind (processAll noErr "skip" rules fs ps).fs.files
        (r.target_folder ++ [lastName p]) = some cdst ∧
      (p, Outcome.skippedCollision) ∈ (processAll noErr "skip" rules fs ps).outcomes := by
  intro ps
  induction ps with
  | nil => intro fs p r csrc cdst _ hp; cases hp
  | cons q ps ih =>
    intro fs p r csrc cdst hnd hp hr hloc hsrc hdst
    have hdstset : settled rules (r.target_folder ++ [lastName p]) := by
      intro r2 hr2
      rw [lastName_concat] at hr2
      rw [hr] at hr2
      cases hr2
      exact parentOf_concat _ _
    rcases List.mem_cons.mp hp with rfl | hptail
    · -- the head step is the tracked file's own step: it must be a
      -- collision skip because its destination exists
      obtain ⟨fs2, out, hok⟩ := processFile_ok noErr "skip" rules fs p (fun _ => rfl)
      rw [processAll, hok]
      have hout : fs2 = pyMkdir fs r.target_folder ∧ out = Outcome.skippedCollision := by
        rcases skip_step_cases hok with
          ⟨hfr, _, _⟩ | ⟨r2, hfr, hl, _, _⟩ | ⟨r2, hfr, _, _, h2, h3⟩ |
          ⟨r2, cc, hfr, _, hex, _, _, _⟩ | ⟨r2, hfr, _, hex, hn, _, _⟩
        · rw [findRule] at hfr; rw [hfr] at hr; cases hr
        · rw [findRule] at hfr; rw [hfr] at hr; cases hr
          exact absurd hl hloc
        · rw [findRule] at hfr; rw [hfr] at hr; cases hr
          exact ⟨h2, h3⟩
        · rw [findRule] at hfr; rw [hfr] at hr; cases hr
          exact absurd (Or.inl (by rw [pyMkdir_files, hdst]; rfl)) hex
        · rw [findRule] at hfr; rw [hfr] at hr; cases hr
          exact absurd (Or.inl (by rw [pyMkdir_files, hdst]; rfl)) hex
      obtain ⟨hfs2, hout2⟩ := hout
      have hpt : p ∉ ps := (List.nodup_cons.mp hnd).1
      have hsrc2 : assocFind fs2.files p = some csrc := by
        rw [hfs2, pyMkdir_files]; exact hsrc
      have hdst2 : assocFind fs2.files (r.target_folder ++ [lastName p]) = some cdst := by
        rw [hfs2, pyMkdir_files]; exact hdst
      refine ⟨skip_run_preserves_other rules ps fs2 p csrc hpt hsrc2,
        skip_run_preserves_settled rules ps fs2 _ cdst hdstset hdst2, ?_⟩
      rw [hout2]
      exact List.mem_cons_self _ _
    · -- the head step processes a different file; the tracked file and
      -- its blocker survive the step
      obtain ⟨fs2, out, hok⟩ := processFile_ok noErr "skip" rules fs q (fun _ => rfl)
      rw [processAll, hok]
      have hpq : p ≠ q := by
        intro hc
        rw [hc] at hptail
        exact (List.nodup_cons.mp hnd).1 hptail
      have hsrc2 : assocFind fs2.files p = some csrc :=
        skip_step_preserves_other hok hpq hsrc
      have hdst2 : assocFind fs2.files (r.target_folder ++ [lastName p]) = some cdst :=
        skip_step_preserves_settled hok hdstset hdst
      obtain ⟨h1, h2, h3⟩ := ih fs2 p r csrc cdst (List.nodup_cons.mp hnd).2 hptail hr hloc
        hsrc2 hdst2
      exact ⟨h1, h2, List.mem_cons_of_mem _ h3⟩

/-- Claim C6: under collision policy `skip`, for every matched candidate
whose proposed destination already exists as a file, no move is performed
during the whole run: the destination file exists before and after the
run with its content unchanged, the source file remains at its original
location with its content, and the candidate is reported as a collision
skip. -/
theorem skip_collision_preserves (sc : SorterConfig) (src : FPath) (fs : FS)
    (hpol : sc.collision_policy = "skip") (hwf : WF fs) (hdir : src ∈ fs.dirs)
    (p : FPath) (hp : p ∈ pyScan fs src sc.recursive_scan sc.ignore_patterns)
    (r : SortRule) (hr : findRule sc.rules p = some r)
    (hloc : parentOf p ≠ r.target_folder)
    (csrc cdst : Nat)
    (hsrc : assocFind fs.files p = some csrc)
    (hdst : assocFind fs.files (r.target_folder ++ [lastName p]) = some cdst) :
    assocFind (sort_files (some sc) src fs noErr).fs.files p = some csrc ∧
    assocFind (sort_files (some sc) src fs noErr).fs.files
      (r.target_folder ++ [lastName p]) = some cdst ∧
    (p, Outcome.skippedCollision) ∈ (sort_files (some sc) src fs noErr).outcomes := by
  rw [sort_files, if_pos hdir, hpol]
  have hnd : (pyScan fs src sc.recursive_scan sc.ignore_patterns).Nodup :=
    List.Nodup.filter _ hwf
  rw [findRule] at hr
  exact skip_run_tracks_file sc.rules _ fs p r csrc cdst hnd hp hr hloc hsrc hdst

/-- Witness for C6: with `T/a.txt` already present, sorting `src/a.txt`
under policy `skip` preserves both files and reports the collision. -/
theorem skip_collision_preserves_witness :
    assocFind (sort_files (some ⟨[⟨[".txt"], ["T"]⟩], "skip", true, []⟩) ["src"]
        ⟨[(["src", "a.txt"], 1), (["T", "a.txt"], 2)], [["src"], ["T"]]⟩ noErr).fs.files
      ["src", "a.txt"] = some 1 ∧
    assocFind (sort_files (some ⟨[⟨[".txt"], ["T"]⟩], "skip", true, []⟩) ["src"]
        ⟨[(["src", "a.txt"], 1), (["T", "a.txt"], 2)], [["src"], ["T"]]⟩ noErr).fs.files
      (["T"] ++ [lastName ["src", "a.txt"]]) = some 2 ∧
    (["src", "a.txt"], Outcome.skippedCollision)
      ∈ (sort_files (some ⟨[⟨[".txt"], ["T"]⟩], "skip", true, []⟩) ["src"]
        ⟨[(["src", "a.txt"], 1), (["T", "a.txt"], 2)], [["src"], ["T"]]⟩ noErr).outcomes :=
  skip_collision_preserves ⟨[⟨[".txt"], ["T"]⟩], "skip", true, []⟩ ["src"]
    ⟨[(["src", "a.txt"], 1), (["T", "a.txt"], 2)], [["src"], ["T"]]⟩
    rfl (by decide) (by decide) ["src", "a.txt"] (by decide) ⟨[".txt"], ["T"]⟩
    (by decide) (by decide) 1 2 (by decide) (by decide)

/-- The destination path of a matched name is itself settled. -/
theorem dst_settled {rules : List SortRule} {fname : String} {r : SortRule}
    (hr : ruleFor rules fname = some r) : settled rules (r.target_folder ++ [fname]) := by
  intro r2 hr2
  rw [lastName_concat] at hr2
  rw [hr] at hr2
  cases hr2
  exact parentOf_concat _ _

/-- After a failure-free skip-policy run over a duplicate-free candidate
list that contains every in-scope file, the run completes and every
in-scope file of the final state is blocked-or-settled with its target
directories present. -/
theorem skip_run_establishes (rules : List SortRule) (root : FPath) (recursive : Bool)
    (ignore : List String) :
    ∀ (ps : List FPath) (fs : FS),
      ps.Nodup →
      (∀ p ∈ ps, (assocFind fs.files p).isSome = true) →
      (∀ q, (assocFind fs.files q).isSome = true →
        scanCond root recursive ignore q = true →
        q ∈ ps ∨ (blockedOrSettled rules fs q ∧ dirsReady rules fs q)) →
      (processAll noErr "skip" rules fs ps).exit = RunExit.completed ∧
      (∀ q, (assocFind (processAll noErr "skip" rules fs ps).fs.files q).isSome = true →
        scanCond root recursive ignore q = true →
        blockedOrSettled rules (processAll noErr "skip" rules fs ps).fs q ∧
        dirsReady rules (processAll noErr "skip" rules fs ps).fs q) := by
  intro ps
  induction ps with
  | nil =>
    intro fs _ _ hinv
    refine ⟨rfl, fun q hq hscan => ?_⟩
    rcases hinv q hq hscan with hmem | hdone
    · cases hmem
    · exact hdone
  | cons p ps ih =>
    intro fs hnd hkeys hinv
    obtain ⟨fs2, out, hok⟩ := processFile_ok noErr "skip" rules fs p (fun _ => rfl)
    rw [processAll, hok]
    have hkeys2 : ∀ p2 ∈ ps, (assocFind fs2.files p2).isSome = true := by
      intro p2 hp2
      have hne : p2 ≠ p := by
        intro hc
        rw [hc] at hp2
        exact (List.nodup_cons.mp hnd).1 hp2
      obtain ⟨c, hc⟩ := Option.isSome_iff_exists.mp (hkeys p2 (List.mem_cons_of_mem p hp2))
      rw [skip_step_preserves_other hok hne hc]
      rfl
    have hdone2 : ∀ q, (blockedOrSettled rules fs q ∧ dirsReady rules fs q) →
        blockedOrSettled rules fs2 q ∧ dirsReady rules fs2 q :=
      fun q hq => ⟨skip_step_preserves_blockedOrSettled hok hq.1,
        skip_step_preserves_dirsReady hok hq.2⟩
    have hpk : (assocFind fs.files p).isSome = true := hkeys p (List.mem_cons_self p ps)
    have hinv2 : ∀ q, (assocFind fs2.files q).isSome = true →
        scanCond root recursive ignore q = true →
        q ∈ ps ∨ (blockedOrSettled rules fs2 q ∧ dirsReady rules fs2 q) := by
      intro q hq hscan
      rcases skip_step_cases hok with
        ⟨hfr, hfs, _⟩ | ⟨r, hfr, hloc, hfs, _⟩ | ⟨r, hfr, hloc, hex, hfs, _⟩ |
        ⟨r, c, hfr, hloc, hex, hsrc, hfs, _⟩ | ⟨r, hfr, hloc, hex, hsrc, hfs, _⟩
      · -- no rule matched: state unchanged
        rw [hfs] at hq
        rcases hinv q hq hscan with hmem | hdone
        · rcases List.mem_cons.mp hmem with rfl | htail
          · refine Or.inr ⟨Or.inl ?_, ?_⟩
            · intro r2 hr2
              rw [findRule] at hfr
              rw [hfr] at hr2
              cases hr2
            · intro r2 hr2
              rw [findRule] at hfr
              rw [hfr] at hr2
              cases hr2
          · exact Or.inl htail
        · rw [hfs]
          exact Or.inr hdone
      · -- same-location skip
        have hqfs : (assocFind fs.files q).isSome = true := by
          rw [hfs, pyMkdir_files] at hq
          exact hq
        rcases hinv q hqfs hscan with hmem | hdone
        · rcases List.mem_cons.mp hmem with rfl | htail
          · refine Or.inr ⟨Or.inl ?_, ?_⟩
            · intro r2 hr2
              rw [findRule] at hfr
              rw [hfr] at hr2
              cases hr2
              exact hloc
            · intro r2 hr2
              rw [findRule] at hfr
              rw [hfr] at hr2
              cases hr2
              intro a ha
              rw [hfs]
              exact pyMkdir_ancestors fs _ a ha
          · exact Or.inl htail
        · exact Or.inr (hdone2 q hdone)
      · -- collision skip: the file is blocked by its destination
        have hqfs : (assocFind fs.files q).isSome = true := by
          rw [hfs, pyMkdir_files] at hq
          exact hq
        rcases hinv q hqfs hscan with hmem | hdone
        · rcases List.mem_cons.mp hmem with rfl | htail
          · refine Or.inr ⟨Or.inr ⟨r, by rw [findRule] at hfr; exact hfr, ?_⟩, ?_⟩
            · rw [hfs]
              exact hex
            · intro r2 hr2
              rw [findRule] at hfr
              rw [hfr] at hr2
              cases hr2
              intro a ha
              rw [hfs]
              exact pyMkdir_ancestors fs _ a ha
          · exact Or.inl htail
        · exact Or.inr (hdone2 q hdone)
      · -- the file was moved to its destination
        by_cases hqdst : q = r.target_folder ++ [lastName p]
        · refine Or.inr ⟨Or.inl ?_, ?_⟩
          · rw [hqdst]
            exact dst_settled (by rw [findRule] at hfr; exact hfr)
          · intro r2 hr2
            rw [hqdst, lastName_concat] at hr2
            rw [findRule] at hfr
            rw [hfr] at hr2
            cases hr2
            intro a ha
            rw [hfs]
            show a ∈ (pyMkdir fs r.target_folder).dirs
            exact pyMkdir_ancestors fs _ a ha
        · have hqfs : (assocFind fs.files q).isSome = true := by
            rw [hfs] at hq
            have hq2 : (assocFind (assocErase (assocErase fs.files p)
                (r.target_folder ++ [lastName p]) ++ [(r.target_folder ++ [lastName p], c)])
                q).isSome = true := hq
            rw [assocFind_append] at hq2
            cases hfind : assocFind (assocErase (assocErase fs.files p)
                (r.target_folder ++ [lastName p])) q with
            | none =>
              rw [hfind] at hq2
              have hq3 : (assocFind [(r.target_folder ++ [lastName p], c)] q).isSome
                  = true := hq2
              rw [assocFind, if_neg (fun hc => hqdst hc.symm)] at hq3
              exact Bool.noConfusion hq3
            | some c2 =>
              by_cases hqp : q = p
              · rw [hqp, assocErase_find_neq (by
                  intro hc
                  rw [hc] at hqp
                  exact hqdst hqp), assocErase_find_self] at hfind
                cases hfind
              · rw [assocErase_find_neq hqdst, assocErase_find_neq hqp] at hfind
                rw [hfind]
                rfl
          rcases hinv q hqfs hscan with hmem | hdone
          · rcases List.mem_cons.mp hmem with rfl | htail
            · -- the processed file itself cannot still be present
              exfalso
              rw [hfs] at hq
              have hq2 : (assocFind (assocErase (assocErase fs.files q)
                  (r.target_folder ++ [lastName q]) ++ [(r.target_folder ++ [lastName q], c)])
                  q).isSome = true := hq
              rw [assocFind_append, assocErase_find_neq hqdst, assocErase_find_self] at hq2
              have hq3 : (assocFind [(r.target_folder ++ [lastName q], c)] q).isSome
                  = true := hq2
              rw [assocFind, if_neg (fun hc => hqdst hc.symm)] at hq3
              exact Bool.noConfusion hq3
            · exact Or.inl htail
          · exact Or.inr (hdone2 q hdone)
      · -- source missing cannot happen: the head is a recorded file
        exfalso
        rw [hsrc] at hpk
        cases hpk
    have := ih fs2 (List.nodup_cons.mp hnd).2 hkeys2 hinv2
    exact this

/-- Over a stable state — every in-scope file blocked-or-settled with its
target directories present — a failure-free skip-policy run is a no-op:
the state is returned exactly unchanged and no outcome is a move. -/
theorem skip_run_stable (rules : List SortRule) (root : FPath) (recursive : Bool)
    (ignore : List String) :
    ∀ (ps : List FPath) (fs : FS),
      (∀ p ∈ ps, (assocFind fs.files p).isSome = true ∧
        scanCond root recursive ignore p = true) →
      (∀ q, (assocFind fs.files q).isSome = true →
        scanCond root recursive ignore q = true →
        blockedOrSettled rules fs q ∧ dirsReady rules fs q) →
      (processAll noErr "skip" rules fs ps).fs = fs ∧
      (processAll noErr "skip" rules fs ps).exit = RunExit.completed ∧
      ∀ pr ∈ (processAll noErr "skip" rules fs ps).outcomes, ∀ d, pr.2 ≠ Outcome.moved d := by
  intro ps
  induction ps with
  | nil => intro fs _ _; exact ⟨rfl, rfl, fun pr hpr => by cases hpr⟩
  | cons p ps ih =>
    intro fs hmem hstable
    obtain ⟨fs2, out, hok⟩ := processFile_ok noErr "skip" rules fs p (fun _ => rfl)
    rw [processAll, hok]
    obtain ⟨hpk, hpscan⟩ := hmem p (List.mem_cons_self p ps)
    obtain ⟨hbs, hdr⟩ := hstable p hpk hpscan
    have hstep : fs2 = fs ∧ ∀ d, out ≠ Outcome.moved d := by
      rcases skip_step_cases hok with
        ⟨hfr, hfs, hout⟩ | ⟨r, hfr, hloc, hfs, hout⟩ | ⟨r, hfr, hloc, hex, hfs, hout⟩ |
        ⟨r, c, hfr, hloc, hex, hsrc, hfs, hout⟩ | ⟨r, hfr, hloc, hex, hsrc, hfs, hout⟩
      · exact ⟨hfs, by rw [hout]; intro d hc; cases hc⟩
      · have hid : pyMkdir fs r.target_folder = fs :=
          pyMkdir_id fs _ (fun a ha => hdr r (by rw [findRule] at hfr; exact hfr) a ha)
        exact ⟨by rw [hfs, hid], by rw [hout]; intro d hc; cases hc⟩
      · have hid : pyMkdir fs r.target_folder = fs :=
          pyMkdir_id fs _ (fun a ha => hdr r (by rw [findRule] at hfr; exact hfr) a ha)
        exact ⟨by rw [hfs, hid], by rw [hout]; intro d hc; cases hc⟩
      · exfalso
        rw [findRule] at hfr
        rcases hbs with hset | ⟨r2, hr2, hex2⟩
        · exact hloc (hset r hfr)
        · rw [hfr] at hr2
          cases hr2
          apply hex
          rcases hex2 with hf | hd
          · exact Or.inl (by rw [pyMkdir_files]; exact hf)
          · exact Or.inr (pyMkdir_dirs_mono hd)
      · exfalso
        rw [hsrc] at hpk
        cases hpk
    obtain ⟨hfs2, hnotmoved⟩ := hstep
    rw [hfs2]
    obtain ⟨h1, h2, h3⟩ := ih fs (fun p2 hp2 => hmem p2 (List.mem_cons_of_mem p hp2)) hstable
    refine ⟨h1, h2, ?_⟩
    intro pr hpr d
    rcases List.mem_cons.mp hpr with rfl | htail
    · exact hnotmoved d
    · exact h3 pr htail d

/-- Claim C5: sorting is idempotent under collision policy `skip`. For a
well-formed tree, after one failure-free run has relocated every eligible
file, a second run performs no moves at all and its post-state equals the
first run's post-state exactly. -/
theorem sort_skip_idempotent (sc : SorterConfig) (src : FPath) (fs : FS)
    (hpol : sc.collision_policy = "skip") (hwf : WF fs) :
    (sort_files (some sc) src (sort_files (some sc) src fs noErr).fs noErr).fs
      = (sort_files (some sc) src fs noErr).fs ∧
    ∀ pr ∈ (sort_files (some sc) src (sort_files (some sc) src fs noErr).fs noErr).outcomes,
      ∀ d, pr.2 ≠ Outcome.moved d := by
  by_cases hdir : src ∈ fs.dirs
  · have hrun1 : sort_files (some sc) src fs noErr
        = processAll noErr "skip" sc.rules fs
            (pyScan fs src sc.recursive_scan sc.ignore_patterns) := by
      rw [sort_files, if_pos hdir, hpol]
    have hnd : (pyScan fs src sc.recursive_scan sc.ignore_patterns).Nodup :=
      List.Nodup.filter _ hwf
    have hkeys : ∀ p ∈ pyScan fs src sc.recursive_scan sc.ignore_patterns,
        (assocFind fs.files p).isSome = true := by
      intro p hp
      rw [pyScan] at hp
      exact mem_fileKeys_isSome (List.mem_filter.mp hp).1
    have hinv0 : ∀ q, (assocFind fs.files q).isSome = true →
        scanCond src sc.recursive_scan sc.ignore_patterns q = true →
        q ∈ pyScan fs src sc.recursive_scan sc.ignore_patterns ∨
          (blockedOrSettled sc.rules fs q ∧ dirsReady sc.rules fs q) := by
      intro q hq hscan
      left
      rw [pyScan]
      exact List.mem_filter.mpr ⟨assocFind_isSome_mem hq, hscan⟩
    obtain ⟨hexit1, hstable⟩ := skip_run_establishes sc.rules src sc.recursive_scan
      sc.ignore_patterns (pyScan fs src sc.recursive_scan sc.ignore_patterns) fs
      hnd hkeys hinv0
    have hdir1 : src ∈ (processAll noErr "skip" sc.rules fs
        (pyScan fs src sc.recursive_scan sc.ignore_patterns)).fs.dirs :=
      skip_run_dirs_mono sc.rules _ fs src hdir
    have hrun2 : sort_files (some sc) src (processAll noErr "skip" sc.rules fs
          (pyScan fs src sc.recursive_scan sc.ignore_patterns)).fs noErr
        = processAll noErr "skip" sc.rules
            (processAll noErr "skip" sc.rules fs
              (pyScan fs src sc.recursive_scan sc.ignore_patterns)).fs
            (pyScan (processAll noErr "skip" sc.rules fs
                (pyScan fs src sc.recursive_scan sc.ignore_patterns)).fs
              src sc.recursive_scan sc.ignore_patterns) := by
      rw [sort_files, if_pos hdir1, hpol]
    have hmem2 : ∀ p ∈ pyScan (processAll noErr "skip" sc.rules fs
          (pyScan fs src sc.recursive_scan sc.ignore_patterns)).fs
          src sc.recursive_scan sc.ignore_patterns,
        (assocFind (processAll noErr "skip" sc.rules fs
          (pyScan fs src sc.recursive_scan sc.ignore_patterns)).fs.files p).isSome = true ∧
        scanCond src sc.recursive_scan sc.ignore_patterns p = true := by
      intro p hp
      rw [pyScan] at hp
      have hmf := List.mem_filter.mp hp
      exact ⟨mem_fileKeys_isSome hmf.1, hmf.2⟩
    obtain ⟨h1, h2, h3⟩ := skip_run_stable sc.rules src sc.recursive_scan sc.ignore_patterns
      (pyScan (processAll noErr "skip" sc.rules fs
          (pyScan fs src sc.recursive_scan sc.ignore_patterns)).fs
        src sc.recursive_scan sc.ignore_patterns)
      (processAll noErr "skip" sc.rules fs
        (pyScan fs src sc.recursive_scan sc.ignore_patterns)).fs
      hmem2 hstable
    rw [hrun1, hrun2]
    exact ⟨h1, h3⟩
  · have h1 : sort_files (some sc) src fs noErr = ⟨fs, RunExit.sourceMissing, []⟩ :=
      source_invalid_aborts sc src fs noErr hdir
    rw [h1]
    show (sort_files (some sc) src fs noErr).fs = fs ∧
      ∀ pr ∈ (sort_files (some sc) src fs noErr).outcomes, ∀ d, pr.2 ≠ Outcome.moved d
    rw [h1]
    exact ⟨rfl, fun pr hpr => absurd hpr (List.not_mem_nil pr)⟩

/-- Witness for C5 at a concrete tree: the target folder lies inside the
recursively scanned source, one file is moved by the first run, and the
second run changes nothing. -/
theorem sort_skip_idempotent_witness :
    (sort_files (some ⟨[⟨[".txt"], ["root", "T"]⟩], "skip", true, []⟩) ["root"]
        (sort_files (some ⟨[⟨[".txt"], ["root", "T"]⟩], "skip", true, []⟩) ["root"]
          ⟨[(["root", "a.txt"], 1), (["root", "T", "b.txt"], 2)], [["root"]]⟩ noErr).fs
        noErr).fs
      = (sort_files (some ⟨[⟨[".txt"], ["root", "T"]⟩], "skip", true, []⟩) ["root"]
          ⟨[(["root", "a.txt"], 1), (["root", "T", "b.txt"], 2)], [["root"]]⟩ noErr).fs ∧
    ∀ pr ∈ (sort_files (some ⟨[⟨[".txt"], ["root", "T"]⟩], "skip", true, []⟩) ["root"]
        (sort_files (some ⟨[⟨[".txt"], ["root", "T"]⟩], "skip", true, []⟩) ["root"]
          ⟨[(["root", "a.txt"], 1), (["root", "T", "b.txt"], 2)], [["root"]]⟩ noErr).fs
        noErr).outcomes,
      ∀ d, pr.2 ≠ Outcome.moved d :=
  sort_skip_idempotent ⟨[⟨[".txt"], ["root", "T"]⟩], "skip", true, []⟩ ["root"]
    ⟨[(["root", "a.txt"], 1), (["root", "T", "b.txt"], 2)], [["root"]]⟩ rfl (by decide)
